import Mathlib

/-!
Verification development for the Task Lifecycle & Dispatch Engine of the
Multi-AI-Agent-Assistant repository.

The definitions below are a shallow embedding of the Python source:

* `src/agents/task_manager.py` — `Task`, `TaskManager` (store, priority model,
  dependency validation, recurrence sweep, deletion cascade, progress updates,
  goal breakdown);
* `src/supervisor.py` — `AgentSupervisor._dispatch_loop` (handler registry,
  retry-with-backoff acquisition, invocation outcome handling);
* `src/agents/supervisor.py` — `SupervisorAgent.route_to_agents` (classifier
  output validation).

Modelling conventions:
* uuid identifiers are modelled as natural numbers drawn from an explicit
  fresh-id supply that the caller passes in;
* timestamps (`datetime`) are modelled as integers (seconds); `timedelta.days`
  is floor division by 86400 (`Int.fdiv`), matching Python's floor semantics;
* Python floats are modelled as exact rationals; `round(x, 2)` is modelled
  exactly (`round2`);
* a Python `dict` is an association list in insertion order: writing an
  existing key updates it in place, writing a new key appends, `del` removes;
* Python stores either a `TaskStatus` enum value or a raw string in
  `task.status` depending on the code path; `PyStatus` keeps that distinction,
  and `statusVal` mirrors the source's
  `task.status.value if hasattr(task.status, 'value') else task.status`;
* external collaborators (LLM classifier, decomposition, graph invocation)
  are parameters: their outputs are universally quantified inputs, and a
  raised exception is an explicit `none` / `Except.error` value.
-/

namespace TaskEngine

/-- Association-list lookup: first binding wins (keys are unique in a dict). -/
def alookup {α β : Type} [DecidableEq α] : List (α × β) → α → Option β
  | [], _ => none
  | (k, v) :: rest, x => if x = k then some v else alookup rest x

/-- Association-list write: replaces an existing key in place, appends a new
key at the end, exactly like assignment to a Python dict key. -/
def aset {α β : Type} [DecidableEq α] : List (α × β) → α → β → List (α × β)
  | [], k, v => [(k, v)]
  | (k', v') :: rest, k, v =>
      if k = k' then (k, v) :: rest else (k', v') :: aset rest k v

/-- Association-list delete, like `del d[k]` (removes every binding of `k`;
with unique keys this is the single binding). -/
def aerase {α β : Type} [DecidableEq α] (l : List (α × β)) (k : α) :
    List (α × β) :=
  l.filter (fun p => decide (p.1 ≠ k))

/-- Keys of an association list, in order. -/
def keysList {α β : Type} (l : List (α × β)) : List α := l.map Prod.fst

/-- Task status enum from `task_manager.py` (`class TaskStatus(Enum)`). -/
inductive TaskStatus
  | pending | in_progress | completed | blocked | on_hold | cancelled | review
  deriving DecidableEq, Repr

/-- The `.value` string of each status enum member. -/
def TaskStatus.toStr : TaskStatus → String
  | .pending => "pending"
  | .in_progress => "in_progress"
  | .completed => "completed"
  | .blocked => "blocked"
  | .on_hold => "on_hold"
  | .cancelled => "cancelled"
  | .review => "review"

/-- `TaskStatus.from_string`: unknown strings fall back to `PENDING`. -/
def TaskStatus.from_string (s : String) : TaskStatus :=
  if s = "pending" then .pending
  else if s = "in_progress" then .in_progress
  else if s = "completed" then .completed
  else if s = "blocked" then .blocked
  else if s = "on_hold" then .on_hold
  else if s = "cancelled" then .cancelled
  else if s = "review" then .review
  else .pending

/-- Task priority enum (`class TaskPriority(Enum)`): CRITICAL=0 .. LOW=3. -/
inductive TaskPriority
  | critical | high | medium | low
  deriving DecidableEq, Repr

/-- The integer `.value` of a priority member. -/
def TaskPriority.val : TaskPriority → Nat
  | .critical => 0
  | .high => 1
  | .medium => 2
  | .low => 3

/-- Recurrence type enum (`class RecurrenceType(Enum)`). -/
inductive RecurrenceType
  | none | daily | weekly | monthly | yearly | custom
  deriving DecidableEq, Repr

/-- A Python `task.status` slot holds either a `TaskStatus` enum member
(set by `__init__` / `from_dict` / milestone completion) or a raw string
(set by `update_task_status`, `update_task_progress`, `assign_agent`).
The two are not `==`-equal in Python, which matters to several code paths. -/
inductive PyStatus
  | enum (s : TaskStatus)
  | str (v : String)
  deriving DecidableEq, Repr

/-- Mirrors `task.status.value if hasattr(task.status, 'value') else task.status`. -/
def statusVal : PyStatus → String
  | .enum s => s.toStr
  | .str v => v

/-- A milestone dict as built by `Task.add_milestone`. -/
structure Milestone where
  mid : Nat
  title : String
  description : String
  completed : Bool
  completed_at : Option Int
  deriving DecidableEq, Repr

/-- A notification dict as built by `Task.add_notification`
(the fresh uuid `id` field is not observed by any claim and is omitted). -/
structure Notif where
  message : String
  ntype : String
  timestamp : Int
  read : Bool
  deriving DecidableEq, Repr

/-- The `Task` record (`class Task` in `task_manager.py`), restricted to the
fields read or written by the code under verification. -/
structure Task where
  tid : Nat
  title : String
  description : String
  priority : TaskPriority
  status : PyStatus
  parent_id : Option Nat
  subtasks : List Nat
  dependencies : List Nat
  assigned_agent : Option String
  due_date : Option Int
  progress : Int
  estimated_hours : ℚ
  tags : List String
  recurrence_type : RecurrenceType
  recurrence_interval : Int
  next_occurrence : Option Int
  completion_criteria : List String
  milestones : List Milestone
  notifications : List Notif
  created_at : Int
  updated_at : Int
  dynamic_priority_score : ℚ
  deriving DecidableEq, Repr

/-- The timedelta day count `(due - now).days`: Python floors. -/
def daysBetween (due now : Int) : Int := Int.fdiv (due - now) 86400

/-- Python's `round(x, 2)` on the exact rational value. -/
def round2 (x : ℚ) : ℚ := ((round (100 * x) : ℤ) : ℚ) / 100

/-- The unrounded score accumulated by `Task._calculate_dynamic_priority`:
`base_score = 5 - priority_val`, plus the due-date factor, plus
`len(subtasks) * 0.2`, plus the status adjustment. -/
def raw_dynamic_priority (t : Task) (now : Int) : ℚ :=
  let base : ℚ := 5 - (t.priority.val : ℚ)
  let withDue : ℚ :=
    match t.due_date with
    | Option.none => base
    | some due =>
        let days : Int := max (-10) (daysBetween due now)
        let due_factor : ℚ :=
          if days < 0 then 3
          else if days = 0 then 2
          else if days ≤ 2 then 1.5
          else if days ≤ 7 then 1
          else 0
        base + due_factor
  let withDep : ℚ := withDue + (t.subtasks.length : ℚ) * 0.2
  if statusVal t.status = "blocked" then withDep - 1
  else if statusVal t.status = "in_progress" then withDep + 0.5
  else withDep

/-- `Task._calculate_dynamic_priority` (returns `round(base_score, 2)`). -/
def calculate_dynamic_priority (t : Task) (now : Int) : ℚ :=
  round2 (raw_dynamic_priority t now)

/-- `Task._calculate_next_occurrence`: interval units added to the due date
(approximate 30-day months / 365-day years); `NONE` (and `CUSTOM`) yield none. -/
def calculate_next_occurrence (t : Task) : Option Int :=
  match t.due_date with
  | Option.none => Option.none
  | some due =>
      match t.recurrence_type with
      | .none => Option.none
      | .daily => some (due + 86400 * t.recurrence_interval)
      | .weekly => some (due + 604800 * t.recurrence_interval)
      | .monthly => some (due + 2592000 * t.recurrence_interval)
      | .yearly => some (due + 31536000 * t.recurrence_interval)
      | .custom => Option.none

/-- `Task.__init__` for the argument subset exercised by the claims; `tid`
models the fresh `uuid4`, `now` the construction time.  Status arrives here
already converted by the `isinstance` branch of `__init__`, so it is stored
as an enum member. -/
def Task.init (tid : Nat) (now : Int) (title description : String)
    (priority : TaskPriority) (status : TaskStatus) (parent_id : Option Nat)
    (assigned_agent : Option String) (dependencies : List Nat)
    (due_date : Option Int) (estimated_hours : ℚ) (tags : List String)
    (rt : RecurrenceType) (ri : Int) (completion_criteria : List String) :
    Task :=
  let base : Task :=
    { tid := tid
      title := title
      description := description
      priority := priority
      status := .enum status
      parent_id := parent_id
      subtasks := []
      dependencies := dependencies
      assigned_agent := assigned_agent
      due_date := due_date
      progress := 0
      estimated_hours := estimated_hours
      tags := tags
      recurrence_type := rt
      recurrence_interval := ri
      next_occurrence := Option.none
      completion_criteria := completion_criteria
      milestones := []
      notifications := []
      created_at := now
      updated_at := now
      dynamic_priority_score := 0 }
  let withNext : Task :=
    { base with next_occurrence :=
        if rt ≠ RecurrenceType.none then calculate_next_occurrence base
        else Option.none }
  { withNext with
      dynamic_priority_score := calculate_dynamic_priority withNext now }

/-! ### Spec-side priority formulas (claim C1)

`spec_score_claim` is the formula exactly as the claim states it
(`base = 3 - staticPriorityRank`); `spec_score_amended` is the nearby formula
the code actually implements (`base = 5 - staticPriorityRank`), with the same
due/dependency/status terms. -/

/-- Due-date bonus exactly as the spec lists the tiers, at day granularity. -/
def spec_due_bonus (due_date : Option Int) (now : Int) : ℚ :=
  match due_date with
  | Option.none => 0
  | some due =>
      let days : Int := max (-10) (daysBetween due now)
      if days < 0 then 3
      else if days = 0 then 2
      else if days ≤ 2 then 1.5
      else if days ≤ 7 then 1
      else 0

/-- Status adjustment as the spec states it. -/
def spec_status_adj (t : Task) : ℚ :=
  if statusVal t.status = "blocked" then -1
  else if statusVal t.status = "in_progress" then 0.5
  else 0

/-- The claimed score: `base = 3 - staticPriorityRank` plus the bonuses. -/
def spec_score_claim (t : Task) (now : Int) : ℚ :=
  (3 - (t.priority.val : ℚ)) + spec_due_bonus t.due_date now
    + 0.2 * (t.subtasks.length : ℚ) + spec_status_adj t

/-- The amended score: `base = 5 - staticPriorityRank` plus the same bonuses. -/
def spec_score_amended (t : Task) (now : Int) : ℚ :=
  (5 - (t.priority.val : ℚ)) + spec_due_bonus t.due_date now
    + 0.2 * (t.subtasks.length : ℚ) + spec_status_adj t

lemma round2_of_ten_mul_int (x : ℚ) (m : ℤ) (h : 10 * x = (m : ℚ)) :
    round2 x = x := by
  have hx : x = (m : ℚ) / 10 := by
    field_simp at h ⊢
    linarith
  subst hx
  unfold round2
  have h100 : (100 : ℚ) * ((m : ℚ) / 10) = ((10 * m : ℤ) : ℚ) := by
    push_cast
    ring
  rw [h100, round_intCast]
  push_cast
  ring

lemma ten_mul_spec_due_bonus (d : Option Int) (now : Int) :
    ∃ b : ℤ, 10 * spec_due_bonus d now = (b : ℚ) := by
  unfold spec_due_bonus
  match d with
  | Option.none => exact ⟨0, by norm_num⟩
  | some due =>
      simp only
      split_ifs
      · exact ⟨30, by norm_num⟩
      · exact ⟨20, by norm_num⟩
      · exact ⟨15, by norm_num⟩
      · exact ⟨10, by norm_num⟩
      · exact ⟨0, by norm_num⟩

lemma ten_mul_spec_status_adj (t : Task) :
    ∃ a : ℤ, 10 * spec_status_adj t = (a : ℚ) := by
  unfold spec_status_adj
  split_ifs
  · exact ⟨-10, by norm_num⟩
  · exact ⟨5, by norm_num⟩
  · exact ⟨0, by norm_num⟩

lemma raw_dynamic_priority_eq_amended (t : Task) (now : Int) :
    raw_dynamic_priority t now = spec_score_amended t now := by
  unfold raw_dynamic_priority spec_score_amended spec_due_bonus spec_status_adj
  match hdd : t.due_date with
  | Option.none =>
      simp only
      split_ifs <;> ring
  | some due =>
      simp only
      split_ifs <;> ring

/-- C1 (amended): the dynamic priority equals the spec formula with the base
term corrected to `5 - staticPriorityRank`; the `round(·, 2)` in the source is
the identity on every reachable value (all terms are multiples of 1/10). -/
theorem dynamic_priority_formula_amended (t : Task) (now : Int) :
    calculate_dynamic_priority t now = spec_score_amended t now := by
  unfold calculate_dynamic_priority
  rw [raw_dynamic_priority_eq_amended]
  obtain ⟨b, hb⟩ := ten_mul_spec_due_bonus t.due_date now
  obtain ⟨a, ha⟩ := ten_mul_spec_status_adj t
  apply round2_of_ten_mul_int _
    (10 * (5 - (t.priority.val : ℤ)) + b + 2 * (t.subtasks.length : ℤ) + a)
  unfold spec_score_amended
  push_cast
  nlinarith [hb, ha]

/-- A medium-priority pending task with no due date and no subtasks. -/
def c1Task : Task :=
  Task.init 0 0 "write report" "" TaskPriority.medium TaskStatus.pending
    Option.none Option.none [] Option.none 0 [] RecurrenceType.none 1 []

/-- C1 counterexample: on a medium-priority, no-due-date, pending task the
code computes score 3 (`5 - 2`), while the claimed formula
(`base = 3 - staticPriorityRank`) yields 1; the claim as stated is false. -/
theorem dynamic_priority_base_counterexample :
    calculate_dynamic_priority c1Task 0 = 3 ∧
      spec_score_claim c1Task 0 = 1 ∧ (3 : ℚ) ≠ 1 := by
  refine ⟨?_, ?_, by norm_num⟩
  · show round2 (raw_dynamic_priority c1Task 0) = 3
    have h : raw_dynamic_priority c1Task 0 = 3 := by
      unfold raw_dynamic_priority c1Task Task.init
      norm_num [statusVal, TaskStatus.toStr, TaskPriority.val]
      decide
    rw [h]
    unfold round2
    norm_num
  · unfold spec_score_claim spec_due_bonus spec_status_adj c1Task Task.init
    norm_num [statusVal, TaskStatus.toStr, TaskPriority.val]
    decide

/-! ### The task store and its elementary update operations -/

/-- The `TaskManager.tasks` dict: task id → `Task`, in insertion order. -/
abbrev Store := List (Nat × Task)

lemma alookup_aset_self {α β : Type} [DecidableEq α] (l : List (α × β))
    (k : α) (v : β) : alookup (aset l k v) k = some v := by
  induction l with
  | nil => simp [aset, alookup]
  | cons p rest ih =>
      by_cases h : k = p.1
      · simp [aset, h, alookup]
      · simp [aset, h, alookup, ih]

lemma alookup_aset_ne {α β : Type} [DecidableEq α] (l : List (α × β))
    (k x : α) (v : β) (h : x ≠ k) :
    alookup (aset l k v) x = alookup l x := by
  induction l with
  | nil => simp [aset, alookup, h]
  | cons p rest ih =>
      by_cases hk : k = p.1
      · subst hk
        simp [aset, alookup, h, ih]
      · by_cases hx : x = p.1
        · simp [aset, alookup, hk, hx]
        · simp [aset, alookup, hk, hx, ih]

lemma alookup_aerase_self {α β : Type} [DecidableEq α] (l : List (α × β))
    (k : α) : alookup (aerase l k) k = none := by
  induction l with
  | nil => rfl
  | cons p rest ih =>
      unfold aerase at ih ⊢
      rw [List.filter_cons]
      by_cases h : p.1 = k
      · have hd : decide (p.1 ≠ k) = false := by simp [h]
        rw [hd]
        simpa using ih
      · have hd : decide (p.1 ≠ k) = true := by simp [h]
        rw [hd]
        simp only [if_true]
        have hk : k ≠ p.1 := fun hk => h hk.symm
        simpa [alookup, hk] using ih

lemma alookup_aerase_ne {α β : Type} [DecidableEq α] (l : List (α × β))
    (k x : α) (h : x ≠ k) : alookup (aerase l k) x = alookup l x := by
  induction l with
  | nil => rfl
  | cons p rest ih =>
      unfold aerase at ih ⊢
      simp only [decide_not] at ih ⊢
      rw [List.filter_cons]
      by_cases hp : p.1 = k
      · have hd : (!decide (p.1 = k)) = false := by simp [hp]
        rw [hd]
        simp only [Bool.false_eq_true, if_false]
        have hx : x ≠ p.1 := by rw [hp]; exact h
        simp [alookup, hx, ih]
      · have hd : (!decide (p.1 = k)) = true := by simp [hp]
        rw [hd]
        simp only [if_true]
        by_cases hx : x = p.1
        · simp [alookup, hx]
        · simp [alookup, hx, ih]

/-- `TaskManager.get_task`. -/
def get_task (s : Store) (tid : Nat) : Option Task := alookup s tid

/-- `TaskManager.update_task_status`: writes the raw status string and
refreshes `updated_at`; `False` on an unknown id. -/
def update_task_status (s : Store) (tid : Nat) (st : String) (now : Int) :
    Bool × Store :=
  match alookup s tid with
  | Option.none => (false, s)
  | some t => (true, aset s tid { t with status := .str st, updated_at := now })

/-- `TaskManager.update_task_progress`: clamps into `[0, 100]`, forces the
status string `"completed"` at 100, refreshes `updated_at`. -/
def update_task_progress (s : Store) (tid : Nat) (p : Int) (now : Int) :
    Bool × Store :=
  match alookup s tid with
  | Option.none => (false, s)
  | some t =>
      let p' := max 0 (min 100 p)
      let t1 := { t with progress := p' }
      let t2 :=
        if p' = 100 then { t1 with status := PyStatus.str "completed" } else t1
      (true, aset s tid { t2 with updated_at := now })

/-- The kwargs subset of `TaskManager.update_task` exercised by the claims;
`some` marks a keyword that was passed.  Every listed key is a real `Task`
attribute, so the `hasattr` guard in the source always succeeds for them. -/
structure UpdatePatch where
  title : Option String
  description : Option String
  status : Option PyStatus
  progress : Option Int
  dependencies : Option (List Nat)
  deriving DecidableEq, Repr

/-- The raw `setattr` loop of `update_task`: values are stored verbatim,
with no clamping, no validation and no status synchronisation. -/
def applyPatch (t : Task) (p : UpdatePatch) : Task :=
  { t with
      title := p.title.getD t.title
      description := p.description.getD t.description
      status := p.status.getD t.status
      progress := p.progress.getD t.progress
      dependencies := p.dependencies.getD t.dependencies }

/-- `TaskManager.update_task`: raw attribute assignment plus an `updated_at`
refresh; `False` on an unknown id. -/
def update_task (s : Store) (tid : Nat) (p : UpdatePatch) (now : Int) :
    Bool × Store :=
  match alookup s tid with
  | Option.none => (false, s)
  | some t => (true, aset s tid { applyPatch t p with updated_at := now })

/-- A task record with explicitly given interesting fields and inert
defaults elsewhere, used to build concrete stores in witnesses. -/
def simpleTask (tid : Nat) (status : PyStatus) (progress : Int)
    (subtasks dependencies : List Nat) (parent_id : Option Nat) : Task :=
  { tid := tid
    title := "t"
    description := ""
    priority := TaskPriority.medium
    status := status
    parent_id := parent_id
    subtasks := subtasks
    dependencies := dependencies
    assigned_agent := Option.none
    due_date := Option.none
    progress := progress
    estimated_hours := 0
    tags := []
    recurrence_type := RecurrenceType.none
    recurrence_interval := 1
    next_occurrence := Option.none
    completion_criteria := []
    milestones := []
    notifications := []
    created_at := 0
    updated_at := 0
    dynamic_priority_score := 0 }

/-! ### Claim C10: `update_task_progress` clamps out-of-range values -/

lemma update_task_progress_found (s : Store) (tid : Nat) (p now : Int)
    (t : Task) (ht : alookup s tid = some t) :
    update_task_progress s tid p now =
      (true, aset s tid
        { t with
            progress := max 0 (min 100 p)
            status :=
              if max 0 (min 100 p) = 100 then PyStatus.str "completed"
              else t.status
            updated_at := now }) := by
  unfold update_task_progress
  rw [ht]
  by_cases h : max 0 (min 100 p) = 100
  · simp [h]
  · simp [h]

/-- C10: for an existing id, `update_task_progress` returns `True` and stores
exactly `min(100, max(0, p))` (the source computes `max(0, min(100, p))`,
which is the same function) without touching other tasks; for an unknown id
it returns `False` and leaves the store unchanged. -/
theorem update_task_progress_clamps (s : Store) (tid : Nat) (p now : Int)
    (t : Task) (ht : alookup s tid = some t) :
    (update_task_progress s tid p now).1 = true ∧
      (∃ t', alookup (update_task_progress s tid p now).2 tid = some t' ∧
        t'.progress = min 100 (max 0 p) ∧
        ∀ j, j ≠ tid →
          alookup (update_task_progress s tid p now).2 j = alookup s j) ∧
      (∀ (s' : Store) (id' : Nat),
        alookup s' id' = (Option.none : Option Task) →
        update_task_progress s' id' p now = (false, s')) := by
  have hclamp : max 0 (min 100 p) = min 100 (max 0 p) := by omega
  rw [update_task_progress_found s tid p now t ht]
  refine ⟨rfl, ⟨_, alookup_aset_self .., ?_, ?_⟩, ?_⟩
  · simpa using hclamp
  · intro j hj
    exact alookup_aset_ne _ _ _ _ hj
  · intro s' id' hs'
    unfold update_task_progress
    rw [hs']

/-- Concrete one-task store for the C10 witness. -/
def c10Store : Store :=
  [(7, simpleTask 7 (PyStatus.enum TaskStatus.pending) 0 [] [] Option.none)]

/-- C10 witness: `p = 150` on an existing task is clamped to 100. -/
theorem update_task_progress_clamps_witness :
    (update_task_progress c10Store 7 150 5).1 = true ∧
      (∃ t', alookup (update_task_progress c10Store 7 150 5).2 7 = some t' ∧
        t'.progress = min 100 (max 0 150) ∧
        ∀ j, j ≠ 7 →
          alookup (update_task_progress c10Store 7 150 5).2 j =
            alookup c10Store j) ∧
      (∀ (s' : Store) (id' : Nat),
        alookup s' id' = (Option.none : Option Task) →
        update_task_progress s' id' 150 5 = (false, s')) :=
  update_task_progress_clamps c10Store 7 150 5
    (simpleTask 7 (PyStatus.enum TaskStatus.pending) 0 [] [] Option.none) rfl

/-! ### Claim C8: `progress == 100 ⇒ status == completed` -/

/-- Marks the first milestone with the given id completed, like the loop in
`Task.complete_milestone`. -/
def markFirstMilestone : List Milestone → Nat → Int → List Milestone
  | [], _, _ => []
  | m :: rest, mid, now =>
      if m.mid = mid then
        { m with completed := true, completed_at := some now } :: rest
      else m :: markFirstMilestone rest mid now

/-- `Task._update_progress_from_milestones`: progress becomes the truncated
percentage of completed milestones (`int((completed/total)*100)`, which is
`(100 * completed) / total` for these non-negative counts), and reaching 100
forces the `COMPLETED` enum status. -/
def update_progress_from_milestones (t : Task) : Task :=
  if t.milestones = [] then t
  else
    let c : Nat := (t.milestones.filter (fun m => m.completed)).length
    let tot : Nat := t.milestones.length
    let prog : Int := ((100 * c) / tot : Nat)
    let t1 := { t with progress := prog }
    if prog = 100 ∧ t1.status ≠ PyStatus.enum TaskStatus.completed then
      { t1 with status := PyStatus.enum TaskStatus.completed }
    else t1

/-- `Task.complete_milestone`: completes the first matching milestone and
recomputes progress; `False` when no milestone has the id. -/
def complete_milestone (t : Task) (mid : Nat) (now : Int) : Bool × Task :=
  if t.milestones.any (fun m => m.mid == mid) then
    (true, update_progress_from_milestones
      { t with milestones := markFirstMilestone t.milestones mid now })
  else (false, t)

/-- The spec invariant: `progress == 100 ⇒ status == completed` (with the
status read through `statusVal`, as the source itself reads it). -/
def TaskInv (t : Task) : Prop := t.progress = 100 → statusVal t.status = "completed"

lemma update_progress_from_milestones_inv (t : Task) (h : TaskInv t) :
    TaskInv (update_progress_from_milestones t) := by
  unfold update_progress_from_milestones
  by_cases hm : t.milestones = []
  · simpa [hm] using h
  · simp only [hm, if_false]
    by_cases hc :
        ((100 * (t.milestones.filter (fun m => m.completed)).length) /
            t.milestones.length : Nat) = (100 : Int) ∧
          t.status ≠ PyStatus.enum TaskStatus.completed
    · rw [if_pos hc]
      intro _
      rfl
    · rw [if_neg hc]
      intro hp
      simp only at hp
      rcases not_and_or.mp hc with hne | hst
      · exact absurd hp hne
      · have : t.status = PyStatus.enum TaskStatus.completed := not_not.mp hst
        rw [this]
        rfl

lemma complete_milestone_inv (t : Task) (mid : Nat) (now : Int)
    (h : TaskInv t) : TaskInv (complete_milestone t mid now).2 := by
  unfold complete_milestone
  by_cases hany : t.milestones.any (fun m => m.mid == mid)
  · rw [if_pos hany]
    exact update_progress_from_milestones_inv _ h
  · rw [if_neg hany]
    exact h

/-- C8 (amended): the invariant `progress == 100 ⇒ status == completed` is
preserved by `update_task_progress` (across the whole store) and by milestone
completion; the generic `update_task` does not maintain it (see the
counterexample), because it assigns attribute values verbatim. -/
theorem progress_invariant_amended (s : Store) (tid : Nat) (p now : Int)
    (k : Nat) (t' : Task) (u : Task) (mid : Nat) (nw : Int)
    (hinv : ∀ j t, alookup s j = some t → TaskInv t)
    (hk : alookup (update_task_progress s tid p now).2 k = some t')
    (hu : TaskInv u) :
    TaskInv t' ∧ TaskInv (complete_milestone u mid nw).2 := by
  refine ⟨?_, complete_milestone_inv u mid nw hu⟩
  match hfound : alookup s tid with
  | Option.none =>
      unfold update_task_progress at hk
      rw [hfound] at hk
      exact hinv k t' hk
  | some t =>
      rw [update_task_progress_found s tid p now t hfound] at hk
      by_cases hkt : k = tid
      · subst hkt
        rw [alookup_aset_self] at hk
        cases hk
        intro hp
        simp only at hp
        simp only [hp, if_pos]
        rfl
      · rw [alookup_aset_ne _ _ _ _ hkt] at hk
        exact hinv k t' hk

/-- A one-milestone task used by the C8 witness. -/
def c8Task : Task :=
  { simpleTask 3 (PyStatus.enum TaskStatus.pending) 0 [] [] Option.none with
      milestones := [{ mid := 11, title := "m", description := "",
                       completed := false, completed_at := Option.none }] }

/-- The task record produced by the C8 witness progress update. -/
def c8Updated : Task := { c8Task with progress := 40, updated_at := 1 }

/-- C8 witness: applying the theorem to a concrete store and task; completing
the sole milestone drives progress to 100 and the status to completed. -/
theorem progress_invariant_amended_witness :
    TaskInv c8Updated ∧ TaskInv (complete_milestone c8Task 11 2).2 := by
  have h := progress_invariant_amended [(3, c8Task)] 3 40 1 3
    c8Updated c8Task 11 2
    (by
      intro j t hj
      unfold alookup at hj
      by_cases hj3 : j = 3
      · rw [if_pos hj3] at hj
        cases hj
        intro hp
        exact absurd hp (by decide)
      · rw [if_neg hj3] at hj
        cases hj)
    (by
      rw [update_task_progress_found [(3, c8Task)] 3 40 1 c8Task rfl,
        alookup_aset_self]
      decide)
    (by intro hp; exact absurd hp (by decide))
  exact h

/-- C8 counterexample: the generic `update_task` stores `progress = 100`
verbatim and leaves the status `pending`, so after this public mutation the
claimed invariant fails. -/
theorem progress_invariant_counterexample :
    (update_task [(3, c8Task)] 3
        { title := Option.none, description := Option.none,
          status := Option.none, progress := some 100,
          dependencies := Option.none } 1).1 = true ∧
      ∃ t', alookup (update_task [(3, c8Task)] 3
          { title := Option.none, description := Option.none,
            status := Option.none, progress := some 100,
            dependencies := Option.none } 1).2 3 = some t' ∧
        t'.progress = 100 ∧ statusVal t'.status = "pending" ∧
        "pending" ≠ "completed" := by
  refine ⟨rfl, ?_⟩
  unfold update_task
  rw [show alookup [(3, c8Task)] 3 = some c8Task from rfl]
  exact ⟨_, alookup_aset_self .., rfl, rfl, by decide⟩

/-! ### The Supervisor dispatch loop (`src/supervisor.py`)

One iteration of `AgentSupervisor._dispatch_loop` for a dequeued item.  The
handler registry `self.agents` is shared mutable state; within a single
iteration of this single-consumer loop nothing else in the model mutates it,
so the five acquisition attempts (`max_retries = 5`, fixed 5-second backoff)
all observe the same registry.  The external classifier (`route_request`) and
the handler invocation (`self.graph.invoke`) are parameters: `routeResult` is
whatever string the classifier returned, and `graphResult` is `.ok response`
for a normal return or `.error ()` for a raised exception. -/

/-- The fixed handler registry built in `AgentSupervisor.__init__`. -/
def agentsInit : List (String × String) :=
  [("task_manager", "idle"), ("prioritization_engine", "idle"),
   ("calendar_orchestrator", "idle"), ("email_triage", "idle"),
   ("focus_support", "idle"), ("smart_reminders", "idle"),
   ("sub_agents", "idle"), ("analytics_dashboard", "idle")]

/-- A queue element (`task_metadata` dict), restricted to the keys the
dispatch loop reads. -/
structure WorkItem where
  query : String
  wtype : String
  task_id : Option Nat
  assigned_agent : Option String
  deriving DecidableEq, Repr

/-- Handler resolution: `assigned_agent` wins only for `type == 'task'` items
with a truthy (non-empty) value; otherwise the classifier output is used
verbatim. -/
def resolvedHandler (item : WorkItem) (routeResult : String) : String :=
  match item.assigned_agent with
  | some a => if item.wtype = "task" ∧ a ≠ "" then a else routeResult
  | Option.none => routeResult

/-- The bounded retry count of the acquisition loop. -/
def max_retries : Nat := 5

/-- The acquisition loop: up to `n` checks of the registry under the lock
(the registry is constant during the wait in this single-threaded model). -/
def retryAcquire (agents : List (String × String)) (name : String) :
    Nat → Bool
  | 0 => false
  | n + 1 =>
      if alookup agents name = some "idle" then true
      else retryAcquire agents name n

/-- The observable outcome of one dispatch-loop iteration. -/
structure DispatchOut where
  agents : List (String × String)
  tasks : Store
  invoked : Bool
  raised : Bool
  abandoned : Bool
  handlerUsed : Option String
  deriving DecidableEq, Repr

/-- One iteration of `AgentSupervisor._dispatch_loop` on a dequeued item
(the `save_to_database` calls mirror the in-memory store and are absorbed
into it). -/
def dispatchStep (agents : List (String × String)) (ts : Store)
    (item : WorkItem) (routeResult : String)
    (graphResult : Except Unit String) (now : Int) : DispatchOut :=
  if item.query = "" then
    { agents := agents, tasks := ts, invoked := false, raised := false,
      abandoned := false, handlerUsed := Option.none }
  else
    let routed := resolvedHandler item routeResult
    let ts1 :=
      match item.task_id with
      | some tid => (update_task_status ts tid "in_progress" now).2
      | Option.none => ts
    if retryAcquire agents routed max_retries then
      let agents1 := aset agents routed "busy"
      match graphResult with
      | .ok _ =>
          let ts2 :=
            match item.task_id with
            | some tid =>
                let sA := (update_task_status ts1 tid "completed" now).2
                (update_task_progress sA tid 100 now).2
            | Option.none => ts1
          { agents := aset agents1 routed "idle", tasks := ts2,
            invoked := true, raised := false, abandoned := false,
            handlerUsed := some routed }
      | .error _ =>
          { agents := aset agents1 routed "idle", tasks := ts1,
            invoked := true, raised := true, abandoned := false,
            handlerUsed := some routed }
    else
      let ts2 :=
        match item.task_id with
        | some tid => (update_task_status ts1 tid "blocked" now).2
        | Option.none => ts1
      { agents := agents, tasks := ts2, invoked := false, raised := false,
        abandoned := true, handlerUsed := Option.none }

lemma update_task_status_found (s : Store) (tid : Nat) (st : String)
    (now : Int) (t : Task) (ht : alookup s tid = some t) :
    update_task_status s tid st now =
      (true, aset s tid { t with status := PyStatus.str st, updated_at := now }) := by
  unfold update_task_status
  rw [ht]

lemma retryAcquire_of_idle (agents : List (String × String)) (name : String)
    (h : alookup agents name = some "idle") (n : Nat) :
    retryAcquire agents name (n + 1) = true := by
  simp [retryAcquire, h]

lemma retryAcquire_of_busy (agents : List (String × String)) (name : String)
    (h : ¬ alookup agents name = some "idle") :
    ∀ n, retryAcquire agents name n = false := by
  intro n
  induction n with
  | zero => rfl
  | succ n ih => simp [retryAcquire, h, ih]

lemma retryAcquire_true_imp (agents : List (String × String)) (name : String)
    (n : Nat) (h : retryAcquire agents name n = true) :
    alookup agents name = some "idle" := by
  by_contra hb
  rw [retryAcquire_of_busy agents name hb n] at h
  exact absurd h (by decide)

lemma alookup_mem_keys {α β : Type} [DecidableEq α] (l : List (α × β))
    (k : α) (v : β) (h : alookup l k = some v) : k ∈ keysList l := by
  induction l with
  | nil => cases h
  | cons p rest ih =>
      unfold alookup at h
      by_cases hk : k = p.1
      · simp [keysList, hk]
      · rw [if_neg hk] at h
        simp only [keysList, List.map_cons, List.mem_cons]
        exact Or.inr (ih h)

/-! ### Claims C5, C6, C9: dispatch outcomes -/

lemma dispatchStep_acquired_error (agents : List (String × String))
    (ts : Store) (item : WorkItem) (rr : String) (now : Int) (tid : Nat)
    (t : Task) (hq : item.query ≠ "")
    (hidle : alookup agents (resolvedHandler item rr) = some "idle")
    (hid : item.task_id = some tid) (ht : alookup ts tid = some t) :
    dispatchStep agents ts item rr (Except.error ()) now =
      { agents := aset (aset agents (resolvedHandler item rr) "busy")
          (resolvedHandler item rr) "idle",
        tasks := aset ts tid
          { t with status := PyStatus.str "in_progress", updated_at := now },
        invoked := true, raised := true, abandoned := false,
        handlerUsed := some (resolvedHandler item rr) } := by
  have hacq : retryAcquire agents (resolvedHandler item rr) max_retries
      = true := retryAcquire_of_idle agents (resolvedHandler item rr) hidle 4
  simp only [dispatchStep, hid]
  rw [if_neg hq, update_task_status_found ts tid "in_progress" now t ht]
  simp only [hacq, if_true]

lemma dispatchStep_acquired_ok (agents : List (String × String))
    (ts : Store) (item : WorkItem) (rr resp : String) (now : Int)
    (hq : item.query ≠ "")
    (hidle : alookup agents (resolvedHandler item rr) = some "idle") :
    (dispatchStep agents ts item rr (Except.ok resp) now).agents =
      aset (aset agents (resolvedHandler item rr) "busy")
        (resolvedHandler item rr) "idle" := by
  have hacq : retryAcquire agents (resolvedHandler item rr) max_retries
      = true := retryAcquire_of_idle agents (resolvedHandler item rr) hidle 4
  simp only [dispatchStep]
  rw [if_neg hq]
  simp only [hacq, if_true]

lemma dispatchStep_busy (agents : List (String × String)) (ts : Store)
    (item : WorkItem) (rr : String) (g : Except Unit String) (now : Int)
    (tid : Nat) (t : Task) (hq : item.query ≠ "")
    (hbusy : ¬ alookup agents (resolvedHandler item rr) = some "idle")
    (hid : item.task_id = some tid) (ht : alookup ts tid = some t) :
    dispatchStep agents ts item rr g now =
      { agents := agents,
        tasks := aset (aset ts tid
            { t with status := PyStatus.str "in_progress", updated_at := now })
          tid { t with status := PyStatus.str "blocked", updated_at := now },
        invoked := false, raised := false, abandoned := true,
        handlerUsed := Option.none } := by
  have hacq : retryAcquire agents (resolvedHandler item rr) max_retries
      = false := retryAcquire_of_busy agents (resolvedHandler item rr) hbusy _
  simp only [dispatchStep, hid]
  rw [if_neg hq, update_task_status_found ts tid "in_progress" now t ht]
  simp only [hacq, Bool.false_eq_true, if_false]
  rw [update_task_status_found _ tid "blocked" now
    { t with status := PyStatus.str "in_progress", updated_at := now }
    (alookup_aset_self ..)]

/-- C5 (amended): after the handler invocation returns — success or raise —
the resolved handler's registry entry is idle again, and on a raise the
referenced task keeps its pre-call state (`in_progress`, set in step 2, with
progress and notifications untouched): no notification records the failure,
and the exception propagates out of the dispatch loop (`raised = true`). -/
theorem dispatch_failure_amended (agents : List (String × String))
    (ts : Store) (item : WorkItem) (rr : String) (now : Int) (tid : Nat)
    (t : Task) (hq : item.query ≠ "")
    (hidle : alookup agents (resolvedHandler item rr) = some "idle")
    (hid : item.task_id = some tid) (ht : alookup ts tid = some t) :
    (∀ g, alookup (dispatchStep agents ts item rr g now).agents
        (resolvedHandler item rr) = some "idle") ∧
      (dispatchStep agents ts item rr (Except.error ()) now).raised = true ∧
      ∃ t', alookup
          (dispatchStep agents ts item rr (Except.error ()) now).tasks tid
            = some t' ∧
        statusVal t'.status = "in_progress" ∧ t'.progress = t.progress ∧
        t'.notifications = t.notifications := by
  refine ⟨?_, ?_, ?_⟩
  · intro g
    match g with
    | .ok resp =>
        rw [dispatchStep_acquired_ok agents ts item rr resp now hq hidle]
        exact alookup_aset_self ..
    | .error () =>
        rw [dispatchStep_acquired_error agents ts item rr now tid t hq hidle
          hid ht]
        exact alookup_aset_self ..
  · rw [dispatchStep_acquired_error agents ts item rr now tid t hq hidle
      hid ht]
  · rw [dispatchStep_acquired_error agents ts item rr now tid t hq hidle
      hid ht]
    exact ⟨_, alookup_aset_self .., rfl, rfl, rfl⟩

/-- Concrete item and store for the C5 witness and counterexample. -/
def c5Item : WorkItem :=
  { query := "summarise inbox", wtype := "task", task_id := some 9,
    assigned_agent := some "task_manager" }

def c5Store : Store :=
  [(9, simpleTask 9 (PyStatus.enum TaskStatus.pending) 0 [] [] Option.none)]

/-- C5 witness: concrete raising dispatch; the handler is idle again and the
exception is propagated. -/
theorem dispatch_failure_amended_witness :
    alookup (dispatchStep agentsInit c5Store c5Item "x"
        (Except.error ()) 7).agents "task_manager" = some "idle" ∧
      (dispatchStep agentsInit c5Store c5Item "x"
        (Except.error ()) 7).raised = true := by
  have h := dispatch_failure_amended agentsInit c5Store c5Item "x" 7 9
    (simpleTask 9 (PyStatus.enum TaskStatus.pending) 0 [] [] Option.none)
    (by decide) (by decide) rfl rfl
  exact ⟨h.1 (Except.error ()), h.2.1⟩

/-- The task state left behind by the C5 counterexample dispatch. -/
def c5After : Task :=
  { simpleTask 9 (PyStatus.enum TaskStatus.pending) 0 [] [] Option.none with
      status := PyStatus.str "in_progress", updated_at := 7 }

/-- C5 counterexample: when the invocation raises, no notification records
the failure anywhere — the referenced task's notification list is still
empty after the dispatch, contrary to the claim. -/
theorem dispatch_failure_notification_counterexample :
    alookup (dispatchStep agentsInit c5Store c5Item "x"
        (Except.error ()) 7).tasks 9 = some c5After ∧
      c5After.notifications = ([] : List Notif) ∧
      (dispatchStep agentsInit c5Store c5Item "x"
        (Except.error ()) 7).raised = true := by
  rw [dispatchStep_acquired_error agentsInit c5Store c5Item "x" 7 9
    (simpleTask 9 (PyStatus.enum TaskStatus.pending) 0 [] [] Option.none)
    (by decide) (by decide) rfl rfl]
  refine ⟨?_, rfl, rfl⟩
  rw [show resolvedHandler c5Item "x" = "task_manager" from rfl]
  exact alookup_aset_self ..

/-- C6 (amended): when the resolved handler is busy at every one of the five
acquisition attempts, the referenced task is marked `blocked` and persisted,
the item is abandoned without re-enqueueing, and the handler is never
invoked; no notification is emitted (see the counterexample). -/
theorem dispatch_busy_abandon_amended (agents : List (String × String))
    (ts : Store) (item : WorkItem) (rr : String) (g : Except Unit String)
    (now : Int) (tid : Nat) (t : Task) (hq : item.query ≠ "")
    (hbusy : ¬ alookup agents (resolvedHandler item rr) = some "idle")
    (hid : item.task_id = some tid) (ht : alookup ts tid = some t) :
    (dispatchStep agents ts item rr g now).invoked = false ∧
      (dispatchStep agents ts item rr g now).abandoned = true ∧
      (dispatchStep agents ts item rr g now).handlerUsed = Option.none ∧
      (dispatchStep agents ts item rr g now).agents = agents ∧
      ∃ t', alookup (dispatchStep agents ts item rr g now).tasks tid
          = some t' ∧
        statusVal t'.status = "blocked" ∧
        t'.notifications = t.notifications := by
  rw [dispatchStep_busy agents ts item rr g now tid t hq hbusy hid ht]
  exact ⟨rfl, rfl, rfl, rfl, _, alookup_aset_self .., rfl, rfl⟩

def c6Item : WorkItem :=
  { query := "triage mail", wtype := "query", task_id := some 4,
    assigned_agent := Option.none }

def c6Agents : List (String × String) := [("email_triage", "busy")]

def c6Store : Store :=
  [(4, simpleTask 4 (PyStatus.enum TaskStatus.pending) 0 [] [] Option.none)]

/-- C6 witness: a busy handler at every attempt yields a blocked task and an
abandoned, never-invoked item. -/
theorem dispatch_busy_abandon_amended_witness :
    (dispatchStep c6Agents c6Store c6Item "email_triage"
        (Except.ok "r") 3).invoked = false ∧
      (dispatchStep c6Agents c6Store c6Item "email_triage"
        (Except.ok "r") 3).abandoned = true ∧
      (dispatchStep c6Agents c6Store c6Item "email_triage"
        (Except.ok "r") 3).handlerUsed = Option.none ∧
      (dispatchStep c6Agents c6Store c6Item "email_triage"
        (Except.ok "r") 3).agents = c6Agents ∧
      ∃ t', alookup (dispatchStep c6Agents c6Store c6Item "email_triage"
          (Except.ok "r") 3).tasks 4 = some t' ∧
        statusVal t'.status = "blocked" ∧
        t'.notifications =
          (simpleTask 4 (PyStatus.enum TaskStatus.pending) 0 [] []
            Option.none).notifications :=
  dispatch_busy_abandon_amended c6Agents c6Store c6Item "email_triage"
    (Except.ok "r") 3 4
    (simpleTask 4 (PyStatus.enum TaskStatus.pending) 0 [] [] Option.none)
    (by decide) (by decide) rfl rfl

/-- The task state left behind by the C6 counterexample dispatch. -/
def c6After : Task :=
  { simpleTask 4 (PyStatus.enum TaskStatus.pending) 0 [] [] Option.none with
      status := PyStatus.str "blocked", updated_at := 3 }

/-- C6 counterexample: after the bounded retries are exhausted the task is
blocked but no notification is emitted — its notification list is still
empty, contrary to the claim. -/
theorem dispatch_busy_notification_counterexample :
    alookup (dispatchStep c6Agents c6Store c6Item "email_triage"
        (Except.ok "r") 3).tasks 4 = some c6After ∧
      c6After.notifications = ([] : List Notif) := by
  rw [dispatchStep_busy c6Agents c6Store c6Item "email_triage"
    (Except.ok "r") 3 4
    (simpleTask 4 (PyStatus.enum TaskStatus.pending) 0 [] [] Option.none)
    (by decide) (by decide) rfl rfl]
  exact ⟨alookup_aset_self .., rfl⟩

/-! ### Claim C9: classifier output and the closed handler set -/

/-- The closed agent list of `SupervisorAgent` (`src/agents/supervisor.py`). -/
def availableAgents : List String :=
  ["email_support", "task_management", "focus_support", "general_assistant",
   "calendar_support", "analytics_support", "reminder_support"]

/-- The validation step of `SupervisorAgent.route_to_agents`: an LLM output
outside the closed set is replaced by `general_assistant`.  This is the only
place in the source where a default substitution happens. -/
def route_to_agents_select (raw : String) : String :=
  if raw ∈ availableAgents then raw else "general_assistant"

/-- C9 (amended): (i) the LangGraph routing node `route_to_agents` does map
every classifier output into its closed agent set, substituting
`general_assistant`; (ii) the dispatcher only ever invokes handler names that
are registered (acquisition requires an idle registry entry); but (iii) the
dispatcher performs no default substitution: an unregistered classifier
output is never acquired, the item is abandoned after the bounded retries and
the referenced task is marked blocked. -/
theorem classifier_routing_amended :
    (∀ raw, route_to_agents_select raw ∈ availableAgents) ∧
      (∀ agents ts item rr g now h,
        (dispatchStep agents ts item rr g now).handlerUsed = some h →
          h ∈ keysList agents) ∧
      (∀ ts item rr g now tid t, item.query ≠ "" →
        alookup agentsInit rr = (Option.none : Option String) →
        item.assigned_agent = Option.none → item.task_id = some tid →
        alookup ts tid = some t →
        (dispatchStep agentsInit ts item rr g now).invoked = false ∧
          (dispatchStep agentsInit ts item rr g now).handlerUsed
              = Option.none ∧
          (dispatchStep agentsInit ts item rr g now).abandoned = true) := by
  refine ⟨?_, ?_, ?_⟩
  · intro raw
    unfold route_to_agents_select
    by_cases h : raw ∈ availableAgents
    · rwa [if_pos h]
    · rw [if_neg h]
      decide
  · intro agents ts item rr g now h hyp
    by_cases hq : item.query = ""
    · simp [dispatchStep, hq] at hyp
    · simp only [dispatchStep] at hyp
      rw [if_neg hq] at hyp
      cases hacq : retryAcquire agents (resolvedHandler item rr) max_retries
      · rw [hacq] at hyp
        simp at hyp
      · rw [hacq] at hyp
        simp only [if_true] at hyp
        have hidle := retryAcquire_true_imp agents
          (resolvedHandler item rr) max_retries hacq
        cases g <;> simp at hyp <;>
          exact hyp ▸ alookup_mem_keys agents (resolvedHandler item rr)
            "idle" hidle
  · intro ts item rr g now tid t hq hun hassign hid ht
    have hres : resolvedHandler item rr = rr := by
      unfold resolvedHandler
      rw [hassign]
    have hbusy : ¬ alookup agentsInit (resolvedHandler item rr)
        = some "idle" := by
      rw [hres, hun]
      intro hc
      cases hc
    rw [dispatchStep_busy agentsInit ts item rr g now tid t hq hbusy hid ht]
    exact ⟨rfl, rfl, rfl⟩

def c9Item : WorkItem :=
  { query := "do something odd", wtype := "query", task_id := some 2,
    assigned_agent := Option.none }

def c9Store : Store :=
  [(2, simpleTask 2 (PyStatus.enum TaskStatus.pending) 0 [] [] Option.none)]

/-- C9 witness: concrete instantiations of all three conjuncts. -/
theorem classifier_routing_amended_witness :
    route_to_agents_select "bogus" ∈ availableAgents ∧
      "task_manager" ∈ keysList agentsInit ∧
      ((dispatchStep agentsInit c9Store c9Item "nonexistent_agent"
          (Except.ok "r") 5).invoked = false ∧
        (dispatchStep agentsInit c9Store c9Item "nonexistent_agent"
          (Except.ok "r") 5).handlerUsed = Option.none ∧
        (dispatchStep agentsInit c9Store c9Item "nonexistent_agent"
          (Except.ok "r") 5).abandoned = true) := by
  refine ⟨classifier_routing_amended.1 "bogus", ?_, ?_⟩
  · exact classifier_routing_amended.2.1 agentsInit c9Store c9Item
      "task_manager" (Except.ok "r") 5 "task_manager" (by decide)
  · exact classifier_routing_amended.2.2 c9Store c9Item "nonexistent_agent"
      (Except.ok "r") 5 2
      (simpleTask 2 (PyStatus.enum TaskStatus.pending) 0 [] [] Option.none)
      (by decide) (by decide) rfl rfl rfl

/-- C9 counterexample: with classifier output `nonexistent_agent` nothing is
invoked at all — the output is not replaced by the default general-purpose
handler (`handlerUsed` is `none`, not `some "general_assistant"`); the item
is abandoned with the task blocked. -/
theorem classifier_routing_counterexample :
    (dispatchStep agentsInit c9Store c9Item "nonexistent_agent"
        (Except.ok "r") 5).handlerUsed = Option.none ∧
      (Option.none : Option String) ≠ some "general_assistant" ∧
      (dispatchStep agentsInit c9Store c9Item "nonexistent_agent"
        (Except.ok "r") 5).invoked = false ∧
      (dispatchStep agentsInit c9Store c9Item "nonexistent_agent"
        (Except.ok "r") 5).abandoned = true := by
  decide

/-! ### Claim C7: `break_down_task` fallback behaviour -/

lemma alookup_append_left {α β : Type} [DecidableEq α] (l l' : List (α × β))
    (k : α) (w : β) (h : alookup l k = some w) :
    alookup (l ++ l') k = some w := by
  induction l with
  | nil => cases h
  | cons p rest ih =>
      by_cases hk : k = p.1
      · simp only [alookup, if_pos hk] at h
        simp only [List.cons_append, alookup, if_pos hk]
        exact h
      · simp only [alookup, if_neg hk] at h
        simp only [List.cons_append, alookup, if_neg hk]
        exact ih h

lemma alookup_append_of_none {α β : Type} [DecidableEq α]
    (l l' : List (α × β)) (k : α) (h : alookup l k = none) :
    alookup (l ++ l') k = alookup l' k := by
  induction l with
  | nil => rfl
  | cons p rest ih =>
      by_cases hk : k = p.1
      · simp only [alookup, if_pos hk] at h
        cases h
      · simp only [alookup, if_neg hk] at h
        simp only [List.cons_append, alookup, if_neg hk]
        exact ih h

lemma length_aset_found {α β : Type} [DecidableEq α] (l : List (α × β))
    (k : α) (v w : β) (h : alookup l k = some w) :
    (aset l k v).length = l.length := by
  induction l with
  | nil => cases h
  | cons p rest ih =>
      unfold aset
      by_cases hk : k = p.1
      · rw [if_pos hk]
        rfl
      · simp only [alookup, if_neg hk] at h
        rw [if_neg hk]
        simp [ih h]

/-- `TaskManager` state: the task dict, the supervisor queue (the supervisor
is present, as in `AgentSupervisor.__init__`), and the fresh-uuid supply. -/
structure MgrSt where
  tasks : Store
  queue : List (Nat × String)
  fresh : Nat
  deriving DecidableEq, Repr

/-- Status conversion applied by `Task.__init__` to a status kwarg. -/
def optStatus : Option String → TaskStatus
  | some s => TaskStatus.from_string s
  | Option.none => TaskStatus.pending

/-- The task built by `create_task` for the kwargs it passes: default medium
priority, no dependencies, no due date, no recurrence. -/
def defaultNewTask (tid : Nat) (now : Int) (title description : String)
    (st : TaskStatus) (pid : Option Nat) : Task :=
  Task.init tid now title description TaskPriority.medium st pid Option.none
    [] Option.none 0 [] RecurrenceType.none 1 []

/-- `TaskManager.create_task` for the kwargs used by `break_down_task`:
stores the new task, appends it to an existing parent's `subtasks`, and
enqueues top-level tasks when `add_to_queue` holds. -/
def create_task (m : MgrSt) (now : Int) (title description : String)
    (statusStr : Option String) (parent_id : Option Nat)
    (add_to_queue : Bool) : Task × MgrSt :=
  let task := defaultNewTask m.fresh now title description
    (optStatus statusStr) parent_id
  let tasks1 := m.tasks ++ [(m.fresh, task)]
  let tasks2 :=
    match parent_id with
    | some p =>
        match alookup tasks1 p with
        | some pt =>
            aset tasks1 p { pt with subtasks := pt.subtasks ++ [m.fresh] }
        | Option.none => tasks1
    | Option.none => tasks1
  let queue1 :=
    if add_to_queue ∧ parent_id = Option.none then
      m.queue ++ [(m.fresh, title)]
    else m.queue
  (task, { tasks := tasks2, queue := queue1, fresh := m.fresh + 1 })

lemma create_task_child (ts : Store) (qu : List (Nat × String)) (fr : Nat)
    (now : Int) (title desc : String) (p : Nat) (pt : Task)
    (hpt : alookup
        (ts ++ [(fr, defaultNewTask fr now title desc (optStatus Option.none)
          (some p))]) p = some pt) :
    create_task ⟨ts, qu, fr⟩ now title desc Option.none (some p) false =
      (defaultNewTask fr now title desc (optStatus Option.none) (some p),
       ⟨aset (ts ++ [(fr, defaultNewTask fr now title desc
            (optStatus Option.none) (some p))]) p
          { pt with subtasks := pt.subtasks ++ [fr] },
        qu, fr + 1⟩) := by
  simp only [create_task]
  rw [hpt]
  rfl

/-- The generic fallback of `break_down_task`: three subtasks named
`Research/Plan/Execute {goal}` under the already-created parent. -/
def fallbackSubs (parent : Task) (goal : String) (m : MgrSt) (now : Int) :
    List Task × MgrSt :=
  let r1 := create_task m now ("Research " ++ goal) "" Option.none
    (some parent.tid) false
  let r2 := create_task r1.2 now ("Plan " ++ goal) "" Option.none
    (some parent.tid) false
  let r3 := create_task r2.2 now ("Execute " ++ goal) "" Option.none
    (some parent.tid) false
  ([parent, r1.1, r2.1, r3.1], r3.2)

/-- The subtask-creation loop of the LLM branch (titleless entries skipped). -/
def createLlmSubs (pid : Nat) (now : Int) :
    List (String × String) → MgrSt → List Task × MgrSt
  | [], m => ([], m)
  | (ti, de) :: rest, m =>
      if ti = "" then createLlmSubs pid now rest m
      else
        let r := create_task m now ti de (some "pending") (some pid) false
        let rs := createLlmSubs pid now rest r.2
        (r.1 :: rs.1, rs.2)

/-- `TaskManager.break_down_task` with the decomposition collaborator as a
parameter: `none` models a raised exception or unparsable LLM reply,
`some l` the parsed `subtasks` array.  An empty `l` raises
`ValueError("No subtasks were generated")`, an all-titleless `l` raises
`ValueError("Failed to generate valid subtasks")`; both land in the generic
fallback, as does `none`. -/
def break_down_task (m : MgrSt) (now : Int) (goal : String)
    (llm : Option (List (String × String))) : List Task × MgrSt :=
  let rp := create_task m now goal "" (some "in_progress") Option.none true
  match llm with
  | Option.none => fallbackSubs rp.1 goal rp.2 now
  | some l =>
      if l.isEmpty then fallbackSubs rp.1 goal rp.2 now
      else
        let rs := createLlmSubs rp.1.tid now l rp.2
        if rs.1.isEmpty then fallbackSubs rp.1 goal rs.2 now
        else (rp.1 :: rs.1, rs.2)

lemma append_ne_empty_left (a b : String) (ha : a ≠ "") : a ++ b ≠ "" := by
  intro hc
  have hl := congrArg String.length hc
  rw [String.length_append] at hl
  have h0 : a.length = 0 := by
    have he : ("" : String).length = 0 := rfl
    omega
  refine ha ?_
  cases a with
  | mk data =>
      cases data with
      | nil => rfl
      | cons c cs => simp [String.length] at h0

/-- C7 (amended): with a failing decomposition collaborator (raise or no
subtasks) and a non-empty goal, `break_down_task` creates exactly one parent
(`in_progress`, title = goal, enqueued exactly once) plus exactly the three
fallback subtasks `Research/Plan/Execute {goal}`, all with non-empty titles,
each a child of the parent and none individually enqueued; the store grows
by exactly four tasks and the stored parent lists exactly the three
subtasks.  `hfresh` is the uuid-freshness of the id supply. -/
theorem break_down_fallback_amended (m : MgrSt) (now : Int) (goal : String)
    (llm : Option (List (String × String)))
    (hfail : llm = Option.none ∨ llm = some [])
    (hg : goal ≠ "") (hfresh : alookup m.tasks m.fresh = none) :
    ∃ p s1 s2 s3, (break_down_task m now goal llm).1 = [p, s1, s2, s3] ∧
      p.tid = m.fresh ∧
      p.status = PyStatus.enum TaskStatus.in_progress ∧
      p.title = goal ∧ p.title ≠ "" ∧
      s1.title = "Research " ++ goal ∧ s2.title = "Plan " ++ goal ∧
      s3.title = "Execute " ++ goal ∧
      s1.title ≠ "" ∧ s2.title ≠ "" ∧ s3.title ≠ "" ∧
      s1.parent_id = some p.tid ∧ s2.parent_id = some p.tid ∧
      s3.parent_id = some p.tid ∧
      (∃ pt, alookup (break_down_task m now goal llm).2.tasks p.tid
          = some pt ∧ pt.subtasks = [s1.tid, s2.tid, s3.tid]) ∧
      (break_down_task m now goal llm).2.tasks.length
        = m.tasks.length + 4 ∧
      (break_down_task m now goal llm).2.queue
        = m.queue ++ [(m.fresh, goal)] := by
  obtain ⟨ts, qu, fr⟩ := m
  dsimp only at hfresh ⊢
  have hmain : break_down_task ⟨ts, qu, fr⟩ now goal llm =
      fallbackSubs
        (create_task ⟨ts, qu, fr⟩ now goal "" (some "in_progress")
          Option.none true).1 goal
        (create_task ⟨ts, qu, fr⟩ now goal "" (some "in_progress")
          Option.none true).2 now := by
    rcases hfail with h | h <;> rw [h] <;> rfl
  have hP : create_task ⟨ts, qu, fr⟩ now goal "" (some "in_progress")
      Option.none true =
      (defaultNewTask fr now goal "" (optStatus (some "in_progress"))
        Option.none,
       ⟨ts ++ [(fr, defaultNewTask fr now goal ""
          (optStatus (some "in_progress")) Option.none)],
        qu ++ [(fr, goal)], fr + 1⟩) := rfl
  set Pp : Task := defaultNewTask fr now goal ""
    (optStatus (some "in_progress")) Option.none with hPp
  set S1t : Task := defaultNewTask (fr + 1) now ("Research " ++ goal) ""
    (optStatus Option.none) (some Pp.tid) with hS1t
  have h1 : alookup ((ts ++ [(fr, Pp)]) ++ [(fr + 1, S1t)]) Pp.tid
      = some Pp := by
    rw [show Pp.tid = fr from rfl]
    refine alookup_append_left _ _ _ _ ?_
    rw [alookup_append_of_none _ _ _ hfresh]
    simp [alookup]
  have e1 := create_task_child (ts ++ [(fr, Pp)]) (qu ++ [(fr, goal)])
    (fr + 1) now ("Research " ++ goal) "" Pp.tid Pp h1
  set Pp1 : Task := { Pp with subtasks := Pp.subtasks ++ [fr + 1] } with hPp1
  set T1 : Store := aset ((ts ++ [(fr, Pp)]) ++ [(fr + 1, S1t)]) Pp.tid Pp1
    with hT1
  set S2t : Task := defaultNewTask (fr + 1 + 1) now ("Plan " ++ goal) ""
    (optStatus Option.none) (some Pp.tid) with hS2t
  have h2 : alookup (T1 ++ [(fr + 1 + 1, S2t)]) Pp.tid = some Pp1 :=
    alookup_append_left _ _ _ _ (alookup_aset_self ..)
  have e2 := create_task_child T1 (qu ++ [(fr, goal)]) (fr + 1 + 1) now
    ("Plan " ++ goal) "" Pp.tid Pp1 h2
  set Pp2 : Task := { Pp1 with subtasks := Pp1.subtasks ++ [fr + 1 + 1] }
    with hPp2
  set T2 : Store := aset (T1 ++ [(fr + 1 + 1, S2t)]) Pp.tid Pp2 with hT2
  set S3t : Task := defaultNewTask (fr + 1 + 1 + 1) now ("Execute " ++ goal)
    "" (optStatus Option.none) (some Pp.tid) with hS3t
  have h3 : alookup (T2 ++ [(fr + 1 + 1 + 1, S3t)]) Pp.tid = some Pp2 :=
    alookup_append_left _ _ _ _ (alookup_aset_self ..)
  have e3 := create_task_child T2 (qu ++ [(fr, goal)]) (fr + 1 + 1 + 1) now
    ("Execute " ++ goal) "" Pp.tid Pp2 h3
  set Pp3 : Task := { Pp2 with subtasks := Pp2.subtasks ++ [fr + 1 + 1 + 1] }
    with hPp3
  set T3 : Store := aset (T2 ++ [(fr + 1 + 1 + 1, S3t)]) Pp.tid Pp3 with hT3
  have hflow : break_down_task ⟨ts, qu, fr⟩ now goal llm =
      ([Pp, S1t, S2t, S3t], ⟨T3, qu ++ [(fr, goal)], fr + 1 + 1 + 1 + 1⟩) := by
    rw [hmain, hP]
    dsimp only
    simp only [fallbackSubs]
    rw [e1]
    dsimp only
    rw [e2]
    dsimp only
    rw [e3]
  rw [hflow]
  refine ⟨Pp, S1t, S2t, S3t, rfl, rfl, rfl, rfl, hg, rfl, rfl, rfl,
    append_ne_empty_left _ _ (by decide),
    append_ne_empty_left _ _ (by decide),
    append_ne_empty_left _ _ (by decide), rfl, rfl, rfl,
    ⟨Pp3, alookup_aset_self .., rfl⟩, ?_, rfl⟩
  show T3.length = ts.length + 4
  rw [hT3, length_aset_found _ _ _ _ h3, List.length_append, hT2,
    length_aset_found _ _ _ _ h2, List.length_append, hT1,
    length_aset_found _ _ _ _ h1, List.length_append, List.length_append]
  simp

/-- The empty manager state used by the C7 witness and counterexample. -/
def mgr0 : MgrSt := { tasks := [], queue := [], fresh := 100 }

/-- C7 witness: `break_down_task` on goal `"ship v2"` with a raising
decomposition collaborator yields the parent plus exactly three fallback
subtasks. -/
theorem break_down_fallback_amended_witness :
    (break_down_task mgr0 0 "ship v2" Option.none).1.length = 4 ∧
      (break_down_task mgr0 0 "ship v2" Option.none).2.tasks.length = 4 ∧
      (break_down_task mgr0 0 "ship v2" Option.none).2.queue
        = [(100, "ship v2")] := by
  have h := break_down_fallback_amended mgr0 0 "ship v2" Option.none
    (Or.inl rfl) (by decide) rfl
  obtain ⟨p, s1, s2, s3, hres, hptid, -, -, -, -, -, -, -, -, -, -, -, -, -,
    hlen, hqueue⟩ := h
  refine ⟨by rw [hres]; rfl, by rw [hlen]; rfl, by rw [hqueue]; rfl⟩

/-- C7 counterexample: with the empty goal text the created parent task has
an empty title, so "every created task having a non-empty title" fails as a
statement over every goal text. -/
theorem break_down_empty_goal_counterexample :
    (alookup (break_down_task mgr0 0 "" Option.none).2.tasks 100).map
        Task.title = some "" ∧
      ¬ ("" : String) ≠ "" := by
  constructor
  · rfl
  · intro h
    exact h rfl

/-! ### Claim C3: recurrence materialization (`_process_recurring_tasks`) -/

/-- `Task.create_recurring_instance`: a new task copying title, description,
priority, handler, estimated effort, tags and recurrence settings, due at the
stored `next_occurrence`, with milestones reset to incomplete (their fresh
uuids are not observed by any claim; the model keeps the source ids). -/
def create_recurring_instance (t : Task) (newId : Nat) (now : Int) :
    Option Task :=
  if t.recurrence_type = RecurrenceType.none ∨
      t.next_occurrence = Option.none then
    Option.none
  else
    let base := Task.init newId now t.title t.description t.priority
      TaskStatus.pending Option.none t.assigned_agent t.dependencies
      t.next_occurrence t.estimated_hours t.tags t.recurrence_type
      t.recurrence_interval t.completion_criteria
    some { base with
      milestones := t.milestones.map (fun mm =>
        { mid := mm.mid, title := mm.title, description := mm.description,
          completed := false, completed_at := Option.none }) }

/-- The loop body of `TaskManager._process_recurring_tasks` over the snapshot
`list(self.tasks.values())`: a completed recurring task whose
`next_occurrence` is due spawns a new instance (fresh uuid), and the original
task's `next_occurrence` is then recomputed by `_calculate_next_occurrence`
— which reads the unchanged `due_date`, so the recomputed value equals the
old one. -/
def processRecurringAux (now : Int) :
    List (Nat × Task) → Store → Nat → Store
  | [], acc, _ => acc
  | (tid, t) :: rest, acc, fresh =>
      if decide (t.recurrence_type ≠ RecurrenceType.none) &&
          decide (t.status = PyStatus.enum TaskStatus.completed) &&
          (match t.next_occurrence with
           | some n => decide (now ≥ n)
           | Option.none => false) then
        match create_recurring_instance t fresh now with
        | some newTask =>
            let acc1 := acc ++ [(fresh, newTask)]
            let acc2 := aset acc1 tid
              { t with next_occurrence := calculate_next_occurrence t }
            processRecurringAux now rest acc2 (fresh + 1)
        | Option.none => processRecurringAux now rest acc fresh
      else processRecurringAux now rest acc fresh

/-- `TaskManager._process_recurring_tasks` (one sweep). -/
def process_recurring_tasks (now : Int) (s : Store) (freshBase : Nat) :
    Store :=
  processRecurringAux now s s freshBase

/-- A completed daily recurring task: due at 0, next occurrence 86400. -/
def c3Task : Task :=
  { tid := 0, title := "standup", description := "",
    priority := TaskPriority.medium,
    status := PyStatus.enum TaskStatus.completed,
    parent_id := Option.none, subtasks := [], dependencies := [],
    assigned_agent := Option.none, due_date := some 0, progress := 0,
    estimated_hours := 0, tags := [], recurrence_type := RecurrenceType.daily,
    recurrence_interval := 1, next_occurrence := some 86400,
    completion_criteria := [], milestones := [], notifications := [],
    created_at := 0, updated_at := 0, dynamic_priority_score := 0 }

def c3Store : Store := [(0, c3Task)]

/-- C3 (code bug): after materializing, `_calculate_next_occurrence` is
recomputed from the unchanged `due_date`, so the original task's
`next_occurrence` stays `86400` — not strictly later — and a second sweep
over the same due occurrence spawns a second instance: the store grows from
1 task to 2 after one sweep and to 3 after the repeated sweep, where the
claim requires exactly one new instance in total. -/
theorem recurrence_sweep_duplicates :
    (alookup (process_recurring_tasks 200000 c3Store 100) 0).map
        Task.next_occurrence = some (some 86400) ∧
      (process_recurring_tasks 200000 c3Store 100).length = 2 ∧
      (process_recurring_tasks 200000
        (process_recurring_tasks 200000 c3Store 100) 101).length = 3 := by
  refine ⟨rfl, rfl, rfl⟩

/-! ### Claim C2: `delete_task` cascade -/

/-- `TaskManager.delete_task` with explicit fuel: remove the task from its
parent's `subtasks` (first occurrence, if present), recursively delete the
snapshot of its own `subtasks`, then delete the task itself.  The fuel bound
only exists to express the recursion in Lean; `delete_task` below supplies
`|store| + 1`, which the cascade theorem shows is enough on well-founded
parent/subtask structures (on a cyclic structure the Python original would
not terminate either). -/
def deleteAux : Nat → Store → Nat → Bool × Store
  | 0, s, _ => (false, s)
  | fuel + 1, s, tid =>
      match alookup s tid with
      | Option.none => (false, s)
      | some t =>
          let s1 :=
            match t.parent_id with
            | some pid =>
                match alookup s pid with
                | some pt =>
                    aset s pid { pt with subtasks := pt.subtasks.erase tid }
                | Option.none => s
            | Option.none => s
          let snap :=
            match alookup s1 tid with
            | some t' => t'.subtasks
            | Option.none => []
          let s2 := snap.foldl (fun acc cid => (deleteAux fuel acc cid).2) s1
          (true, aerase s2 tid)

/-- `TaskManager.delete_task`. -/
def delete_task (s : Store) (tid : Nat) : Bool × Store :=
  deleteAux (s.length + 1) s tid

/-- Transitive membership in the `subtasks` forest of a store. -/
inductive Desc (s : Store) : Nat → Nat → Prop
  | direct {a c : Nat} {t : Task} :
      alookup s a = some t → c ∈ t.subtasks → Desc s a c
  | trans {a c d : Nat} {t : Task} :
      alookup s a = some t → c ∈ t.subtasks → Desc s c d → Desc s a d

/-- The surgery invariant of a running deletion relative to the original
store `s0`: keys only disappear; every surviving entry is the original one
with a (possibly) pruned `subtasks` list, and everything pruned from it is
already deleted or still pending in `X`; every deleted entry's original
children are deleted or pending in `X`. -/
structure DelInv (s0 σ : Store) (X : List Nat) : Prop where
  deadMono : ∀ k, alookup s0 k = none → alookup σ k = none
  live : ∀ k tk, alookup σ k = some tk → ∃ t0, alookup s0 k = some t0 ∧
      (∀ c, c ∈ tk.subtasks → c ∈ t0.subtasks) ∧
      (∀ c, c ∈ t0.subtasks →
        c ∈ tk.subtasks ∨ alookup σ c = none ∨ c ∈ X)
  dead : ∀ k t0, alookup s0 k = some t0 → alookup σ k = none →
      ∀ c, c ∈ t0.subtasks → alookup σ c = none ∨ c ∈ X

lemma DelInv.monoX {s0 σ : Store} {X X' : List Nat} (hX : ∀ x ∈ X, x ∈ X')
    (h : DelInv s0 σ X) : DelInv s0 σ X' := by
  refine ⟨h.deadMono, ?_, ?_⟩
  · intro k tk hk
    obtain ⟨t0, h0, hsub, hcov⟩ := h.live k tk hk
    refine ⟨t0, h0, hsub, ?_⟩
    intro c hc
    rcases hcov c hc with h1 | h1 | h1
    · exact Or.inl h1
    · exact Or.inr (Or.inl h1)
    · exact Or.inr (Or.inr (hX c h1))
  · intro k t0 h0 hk c hc
    rcases h.dead k t0 h0 hk c hc with h1 | h1
    · exact Or.inl h1
    · exact Or.inr (hX c h1)

lemma DelInv.refl (s0 : Store) : DelInv s0 s0 [] := by
  refine ⟨fun k h => h, ?_, ?_⟩
  · intro k tk hk
    exact ⟨tk, hk, fun c hc => hc, fun c hc => Or.inl hc⟩
  · intro k t0 h0 hk
    rw [h0] at hk
    cases hk

lemma alookup_mem_pair {α β : Type} [DecidableEq α] (l : List (α × β))
    (k : α) (v : β) (h : alookup l k = some v) : (k, v) ∈ l := by
  induction l with
  | nil => cases h
  | cons p rest ih =>
      unfold alookup at h
      by_cases hk : k = p.1
      · rw [if_pos hk] at h
        cases h
        rw [hk]
        exact List.mem_cons_self _ _
      · exact List.mem_cons_of_mem p (ih (by rwa [if_neg hk] at h))

lemma alookup_aset_eq {α β : Type} [DecidableEq α] (l : List (α × β))
    (k : α) (v : β) (x : α) :
    alookup (aset l k v) x = if x = k then some v else alookup l x := by
  by_cases hx : x = k
  · rw [if_pos hx, hx]
    exact alookup_aset_self ..
  · rw [if_neg hx]
    exact alookup_aset_ne _ _ _ _ hx

lemma aerase_pres_none {α β : Type} [DecidableEq α] (l : List (α × β))
    (k x : α) (h : alookup l x = none) : alookup (aerase l k) x = none := by
  by_cases hx : x = k
  · rw [hx]
    exact alookup_aerase_self ..
  · rw [alookup_aerase_ne _ _ _ hx]
    exact h

/-- The parent-pruning step of a deletion: removing `j` from its parent's
`subtasks` is invariant-preserving once `j` itself is recorded as pending. -/
lemma parentPrune_inv (s0 σ σ1 : Store) (X : List Nat) (j : Nat) (t : Task)
    (hInv : DelInv s0 σ X) (_hj : alookup σ j = some t)
    (hσ1 : σ1 = (match t.parent_id with
      | some pid =>
          (match alookup σ pid with
           | some pt => aset σ pid { pt with subtasks := pt.subtasks.erase j }
           | Option.none => σ)
      | Option.none => σ)) :
    DelInv s0 σ1 (j :: X) ∧
      (∀ k, alookup σ k = none ↔ alookup σ1 k = none) ∧
      (∀ k tk1, alookup σ1 k = some tk1 → ∃ tk, alookup σ k = some tk ∧
        (∀ c, c ∈ tk1.subtasks → c ∈ tk.subtasks) ∧
        tk1.dependencies = tk.dependencies) := by
  have hXw : ∀ x ∈ X, x ∈ j :: X := fun x hx => List.mem_cons_of_mem j hx
  subst hσ1
  cases hp : t.parent_id with
  | none =>
      exact ⟨hInv.monoX hXw, fun k => Iff.rfl,
        fun k tk1 h => ⟨tk1, h, fun c hc => hc, rfl⟩⟩
  | some pid =>
      dsimp only
      cases hpt : alookup σ pid with
      | none =>
          exact ⟨hInv.monoX hXw, fun k => Iff.rfl,
            fun k tk1 h => ⟨tk1, h, fun c hc => hc, rfl⟩⟩
      | some pt =>
          have hkk : ∀ x, alookup
              (aset σ pid { pt with subtasks := pt.subtasks.erase j }) x =
              if x = pid then
                some { pt with subtasks := pt.subtasks.erase j }
              else alookup σ x :=
            fun x => alookup_aset_eq ..
          have hσ1dead : ∀ x, alookup σ x = none →
              alookup (aset σ pid
                { pt with subtasks := pt.subtasks.erase j }) x = none := by
            intro x hx
            rw [hkk x, if_neg]
            · exact hx
            · intro he
              rw [he, hpt] at hx
              cases hx
          refine ⟨⟨?_, ?_, ?_⟩, ?_, ?_⟩
          · intro k hk
            exact hσ1dead k (hInv.deadMono k hk)
          · intro k tk1 hk1
            rw [hkk k] at hk1
            by_cases hkp : k = pid
            · rw [if_pos hkp] at hk1
              cases hk1
              obtain ⟨t0, h0, hsub, hcov⟩ := hInv.live pid pt hpt
              rw [hkp]
              refine ⟨t0, h0, ?_, ?_⟩
              · intro c hc
                exact hsub c (List.erase_subset _ _ hc)
              · intro c hc
                rcases hcov c hc with h1 | h1 | h1
                · by_cases hcj : c = j
                  · exact Or.inr (Or.inr (by
                      rw [hcj]
                      exact List.mem_cons_self j X))
                  · exact Or.inl ((List.mem_erase_of_ne hcj).mpr h1)
                · exact Or.inr (Or.inl (hσ1dead c h1))
                · exact Or.inr (Or.inr (hXw c h1))
            · rw [if_neg hkp] at hk1
              obtain ⟨t0, h0, hsub, hcov⟩ := hInv.live k tk1 hk1
              refine ⟨t0, h0, hsub, ?_⟩
              intro c hc
              rcases hcov c hc with h1 | h1 | h1
              · exact Or.inl h1
              · exact Or.inr (Or.inl (hσ1dead c h1))
              · exact Or.inr (Or.inr (hXw c h1))
          · intro k t0 h0 hk c hc
            have hkσ : alookup σ k = none := by
              rw [hkk k] at hk
              by_cases hkp : k = pid
              · rw [if_pos hkp] at hk
                cases hk
              · rwa [if_neg hkp] at hk
            rcases hInv.dead k t0 h0 hkσ c hc with h1 | h1
            · exact Or.inl (hσ1dead c h1)
            · exact Or.inr (hXw c h1)
          · intro k
            constructor
            · exact hσ1dead k
            · intro hk
              rw [hkk k] at hk
              by_cases hkp : k = pid
              · rw [if_pos hkp] at hk
                cases hk
              · rwa [if_neg hkp] at hk
          · intro k tk1 hk1
            rw [hkk k] at hk1
            by_cases hkp : k = pid
            · rw [if_pos hkp] at hk1
              cases hk1
              rw [hkp]
              exact ⟨pt, hpt, fun c hc => List.erase_subset _ _ hc, rfl⟩
            · rw [if_neg hkp] at hk1
              exact ⟨tk1, hk1, fun c hc => hc, rfl⟩

/-- After the parent-pruning step, `j` is still present and its `subtasks`
snapshot is its original list minus possibly `j` itself. -/
lemma snap_spec (σ σ1 : Store) (j : Nat) (t : Task)
    (hj : alookup σ j = some t)
    (hσ1 : σ1 = (match t.parent_id with
      | some pid =>
          (match alookup σ pid with
           | some pt => aset σ pid { pt with subtasks := pt.subtasks.erase j }
           | Option.none => σ)
      | Option.none => σ)) :
    ∃ tj, alookup σ1 j = some tj ∧
      (∀ c, c ∈ tj.subtasks → c ∈ t.subtasks) ∧
      (∀ c, c ∈ t.subtasks → c ∈ tj.subtasks ∨ c = j) := by
  subst hσ1
  cases hp : t.parent_id with
  | none =>
      exact ⟨t, hj, fun c hc => hc, fun c hc => Or.inl hc⟩
  | some pid =>
      dsimp only
      cases hpt : alookup σ pid with
      | none =>
          exact ⟨t, hj, fun c hc => hc, fun c hc => Or.inl hc⟩
      | some pt =>
          rw [alookup_aset_eq]
          by_cases hjp : j = pid
          · rw [if_pos hjp]
            have hptt : pt = t := by
              rw [← hjp, hj] at hpt
              exact (Option.some.inj hpt).symm
            subst hptt
            refine ⟨_, rfl, ?_, ?_⟩
            · intro c hc
              exact List.erase_subset _ _ hc
            · intro c hc
              by_cases hcj : c = j
              · exact Or.inr hcj
              · exact Or.inl ((List.mem_erase_of_ne hcj).mpr hc)
          · rw [if_neg hjp]
            exact ⟨t, hj, fun c hc => hc, fun c hc => Or.inl hc⟩

/-- The main characterisation of a running deletion: on a rank-founded store
(`R` strictly decreases along subtask edges of `s0`) a call with enough fuel
preserves the surgery invariant, kills its target, never resurrects a dead
key, keeps higher-rank keys alive, and only ever prunes `subtasks` lists
(never `dependencies`). -/
lemma deleteAux_pres (s0 : Store) (R : Nat → Nat)
    (hR : ∀ k u, alookup s0 k = some u → ∀ c ∈ u.subtasks, R c < R k) :
    ∀ (fuel : Nat) (σ : Store) (j : Nat) (X : List Nat),
      DelInv s0 σ X → R j < fuel →
      DelInv s0 (deleteAux fuel σ j).2 X ∧
      alookup (deleteAux fuel σ j).2 j = none ∧
      (∀ k, alookup σ k = none → alookup (deleteAux fuel σ j).2 k = none) ∧
      (∀ k, R j < R k → alookup σ k ≠ none →
        alookup (deleteAux fuel σ j).2 k ≠ none) ∧
      (∀ k tk', alookup (deleteAux fuel σ j).2 k = some tk' →
        ∃ tk, alookup σ k = some tk ∧
          (∀ c, c ∈ tk'.subtasks → c ∈ tk.subtasks) ∧
          tk'.dependencies = tk.dependencies) := by
  intro fuel
  induction fuel with
  | zero =>
      intro σ j X _ hfuel
      omega
  | succ fuel ih =>
      intro σ j X hInv hfuel
      cases hj : alookup σ j with
      | none =>
          have hres : deleteAux (fuel + 1) σ j = (false, σ) := by
            unfold deleteAux
            rw [hj]
          rw [hres]
          exact ⟨hInv, hj, fun k h => h, fun k _ h => h,
            fun k tk' h => ⟨tk', h, fun c hc => hc, rfl⟩⟩
      | some t =>
          obtain ⟨σ1, hσ1⟩ : ∃ σ1, σ1 = (match t.parent_id with
            | some pid =>
                (match alookup σ pid with
                 | some pt =>
                    aset σ pid { pt with subtasks := pt.subtasks.erase j }
                 | Option.none => σ)
            | Option.none => σ) := ⟨_, rfl⟩
          obtain ⟨hInv1, hiff1, hshrA⟩ :=
            parentPrune_inv s0 σ σ1 X j t hInv hj hσ1
          obtain ⟨tj, hj1, htjsub, htjcov⟩ := snap_spec σ σ1 j t hj hσ1
          have hres : deleteAux (fuel + 1) σ j =
              (true, aerase (tj.subtasks.foldl
                (fun acc cid => (deleteAux fuel acc cid).2) σ1) j) := by
            rw [deleteAux]
            simp only [hj]
            rw [← hσ1]
            simp only [hj1]
          obtain ⟨t0j, h0j, hsubj, hcovj⟩ := hInv.live j t hj
          have hrank : ∀ c ∈ tj.subtasks, R c < R j := by
            intro c hc
            exact hR j t0j h0j c (hsubj c (htjsub c hc))
          have hrankfuel : ∀ c ∈ tj.subtasks, R c < fuel := by
            intro c hc
            have := hrank c hc
            omega
          have hfold : ∀ (cs : List Nat) (σa : Store),
              DelInv s0 σa (j :: X) → (∀ c ∈ cs, R c < fuel) →
              DelInv s0 (cs.foldl
                (fun acc cid => (deleteAux fuel acc cid).2) σa) (j :: X) ∧
              (∀ c ∈ cs, alookup (cs.foldl
                (fun acc cid => (deleteAux fuel acc cid).2) σa) c = none) ∧
              (∀ k, alookup σa k = none → alookup (cs.foldl
                (fun acc cid => (deleteAux fuel acc cid).2) σa) k = none) ∧
              (∀ k, (∀ c ∈ cs, R c < R k) → alookup σa k ≠ none →
                alookup (cs.foldl
                  (fun acc cid => (deleteAux fuel acc cid).2) σa) k ≠ none) ∧
              (∀ k tk', alookup (cs.foldl
                  (fun acc cid => (deleteAux fuel acc cid).2) σa) k
                    = some tk' →
                ∃ tk, alookup σa k = some tk ∧
                  (∀ c, c ∈ tk'.subtasks → c ∈ tk.subtasks) ∧
                  tk'.dependencies = tk.dependencies) := by
            intro cs
            induction cs with
            | nil =>
                intro σa hI _
                exact ⟨hI, fun c hc => absurd hc (List.not_mem_nil c),
                  fun k h => h, fun k _ h => h,
                  fun k tk' h => ⟨tk', h, fun c hc => hc, rfl⟩⟩
            | cons c cs ihcs =>
                intro σa hI hr
                obtain ⟨hI1, hdead1, hmono1, halive1, hshr1⟩ :=
                  ih σa c (j :: X) hI (hr c (List.mem_cons_self c cs))
                obtain ⟨hI2, hdead2, hmono2, halive2, hshr2⟩ :=
                  ihcs ((deleteAux fuel σa c).2) hI1
                    (fun c' hc' => hr c' (List.mem_cons_of_mem c hc'))
                rw [List.foldl_cons]
                refine ⟨hI2, ?_, ?_, ?_, ?_⟩
                · intro c' hc'
                  rcases List.mem_cons.mp hc' with rfl | hm
                  · exact hmono2 _ hdead1
                  · exact hdead2 c' hm
                · intro k hk
                  exact hmono2 k (hmono1 k hk)
                · intro k hrk hk
                  exact halive2 k
                    (fun c' hc' => hrk c' (List.mem_cons_of_mem c hc'))
                    (halive1 k (hrk c (List.mem_cons_self c cs)) hk)
                · intro k tk' hk
                  obtain ⟨tk1, hk1, hs1, hd1⟩ := hshr2 k tk' hk
                  obtain ⟨tk0, hk0, hs0, hd0⟩ := hshr1 k tk1 hk1
                  exact ⟨tk0, hk0, fun cc hcc => hs0 cc (hs1 cc hcc),
                    hd1.trans hd0⟩
          obtain ⟨hI2, hdead2, hmono2, halive2, hshr2⟩ :=
            hfold tj.subtasks σ1 hInv1 hrankfuel
          rw [hres]
          have hD : ∀ k, alookup σ k = none →
              alookup (aerase (tj.subtasks.foldl
                (fun acc cid => (deleteAux fuel acc cid).2) σ1) j) k
                  = none := by
            intro k hk
            exact aerase_pres_none _ _ _ (hmono2 k ((hiff1 k).mp hk))
          refine ⟨⟨?_, ?_, ?_⟩, alookup_aerase_self .., hD, ?_, ?_⟩
          · intro k hk
            exact hD k (hInv.deadMono k hk)
          · intro k tk' hk
            have hkj : k ≠ j := by
              intro he
              rw [he, alookup_aerase_self] at hk
              cases hk
            rw [alookup_aerase_ne _ _ _ hkj] at hk
            obtain ⟨t0, h0, hsub, hcov⟩ := hI2.live k tk' hk
            refine ⟨t0, h0, hsub, ?_⟩
            intro c hc
            rcases hcov c hc with h1 | h1 | h1
            · exact Or.inl h1
            · exact Or.inr (Or.inl (aerase_pres_none _ _ _ h1))
            · rcases List.mem_cons.mp h1 with rfl | hx
              · exact Or.inr (Or.inl (alookup_aerase_self ..))
              · exact Or.inr (Or.inr hx)
          · intro k t0 h0 hkdead
            by_cases hkj : k = j
            · subst hkj
              have ht0 : t0 = t0j := by
                rw [h0] at h0j
                exact Option.some.inj h0j
              subst ht0
              intro c hc
              rcases hcovj c hc with h1 | h1 | h1
              · rcases htjcov c h1 with h2 | h2
                · exact Or.inl (aerase_pres_none _ _ _ (hdead2 c h2))
                · rw [h2]
                  exact Or.inl (alookup_aerase_self ..)
              · exact Or.inl (hD c h1)
              · exact Or.inr h1
            · have hk2 : alookup (tj.subtasks.foldl
                  (fun acc cid => (deleteAux fuel acc cid).2) σ1) k
                    = none := by
                rwa [alookup_aerase_ne _ _ _ hkj] at hkdead
              intro c hc
              rcases hI2.dead k t0 h0 hk2 c hc with h1 | h1
              · exact Or.inl (aerase_pres_none _ _ _ h1)
              · rcases List.mem_cons.mp h1 with rfl | hx
                · exact Or.inl (alookup_aerase_self ..)
                · exact Or.inr hx
          · intro k hRk hk
            have hkj : k ≠ j := by
              intro he
              rw [he] at hRk
              omega
            rw [alookup_aerase_ne _ _ _ hkj]
            refine halive2 k (fun c hc => lt_trans (hrank c hc) hRk) ?_
            intro h1
            exact hk ((hiff1 k).mpr h1)
          · intro k tk' hk
            have hkj : k ≠ j := by
              intro he
              rw [he, alookup_aerase_self] at hk
              cases hk
            rw [alookup_aerase_ne _ _ _ hkj] at hk
            obtain ⟨tk1, hk1, hs1, hd1⟩ := hshr2 k tk' hk
            obtain ⟨tk0, hk0, hs0, hd0⟩ := hshrA k tk1 hk1
            exact ⟨tk0, hk0, fun cc hcc => hs0 cc (hs1 cc hcc),
              hd1.trans hd0⟩

lemma deleteAux_found_true (fuel : Nat) (σ : Store) (j : Nat) (t : Task)
    (hj : alookup σ j = some t) : (deleteAux (fuel + 1) σ j).1 = true := by
  rw [deleteAux]
  simp [hj]

/-- C2 (amended): deleting a stored task on a well-founded parent/subtask
structure (`R` strictly decreases along subtask edges, with the root's rank
within the store size) returns `True`, makes the task and every transitive
former subtask unfetchable by `get`, and leaves every surviving task's
`dependencies` list untouched — dangling references to the deleted ids are
not removed. -/
theorem delete_task_cascades_amended (s : Store) (tid : Nat) (t : Task)
    (R : Nat → Nat)
    (hR : ∀ p ∈ s, ∀ c ∈ (Prod.snd p).subtasks, R c < R p.1)
    (hRs : R tid ≤ s.length)
    (ht : alookup s tid = some t) :
    (delete_task s tid).1 = true ∧
      alookup (delete_task s tid).2 tid = none ∧
      (∀ d, Desc s tid d → alookup (delete_task s tid).2 d = none) ∧
      (∀ k tk', alookup (delete_task s tid).2 k = some tk' →
        ∃ tk, alookup s k = some tk ∧ tk'.dependencies = tk.dependencies) := by
  have hR' : ∀ k u, alookup s k = some u → ∀ c ∈ u.subtasks, R c < R k :=
    fun k u h c hc => hR (k, u) (alookup_mem_pair s k u h) c hc
  unfold delete_task
  obtain ⟨hA, hB, hD, hC, hE⟩ := deleteAux_pres s R hR' (s.length + 1) s tid
    [] (DelInv.refl s) (by omega)
  refine ⟨deleteAux_found_true s.length s tid t ht, hB, ?_, ?_⟩
  · have hgen : ∀ a d, Desc s a d →
        alookup (deleteAux (s.length + 1) s tid).2 a = none →
        alookup (deleteAux (s.length + 1) s tid).2 d = none := by
      intro a d hdesc
      induction hdesc with
      | direct h0 hc =>
          intro ha
          rcases hA.dead _ _ h0 ha _ hc with h1 | h1
          · exact h1
          · cases h1
      | trans h0 hc _ ihd =>
          intro ha
          refine ihd ?_
          rcases hA.dead _ _ h0 ha _ hc with h1 | h1
          · exact h1
          · cases h1
    intro d hd
    exact hgen tid d hd hB
  · intro k tk' hk
    obtain ⟨tk, hk0, _, hdep⟩ := hE k tk' hk
    exact ⟨tk, hk0, hdep⟩

/-- A three-level subtask chain 1 → 2 → 3 for the C2 witness. -/
def c2WStore : Store :=
  [(1, simpleTask 1 (PyStatus.enum TaskStatus.pending) 0 [2] [] Option.none),
   (2, simpleTask 2 (PyStatus.enum TaskStatus.pending) 0 [3] [] (some 1)),
   (3, simpleTask 3 (PyStatus.enum TaskStatus.pending) 0 [] [] (some 2))]

/-- C2 witness: deleting the root of the chain removes the grandchild too. -/
theorem delete_task_cascades_amended_witness :
    (delete_task c2WStore 1).1 = true ∧
      alookup (delete_task c2WStore 1).2 1 = none ∧
      alookup (delete_task c2WStore 1).2 3 = none := by
  have h := delete_task_cascades_amended c2WStore 1
    (simpleTask 1 (PyStatus.enum TaskStatus.pending) 0 [2] [] Option.none)
    (fun k => 3 - k) (by decide) (by decide) rfl
  exact ⟨h.1, h.2.1,
    h.2.2.1 3 (@Desc.trans c2WStore 1 2 3
      (simpleTask 1 (PyStatus.enum TaskStatus.pending) 0 [2] [] Option.none)
      rfl (by decide)
      (@Desc.direct c2WStore 2 3
        (simpleTask 2 (PyStatus.enum TaskStatus.pending) 0 [3] [] (some 1))
        rfl (by decide)))⟩

/-- Two tasks where 2 depends on 1. -/
def c2CStore : Store :=
  [(1, simpleTask 1 (PyStatus.enum TaskStatus.pending) 0 [] [] Option.none),
   (2, simpleTask 2 (PyStatus.enum TaskStatus.pending) 0 [] [1] Option.none)]

/-- C2 counterexample: after `delete_task` of task 1 succeeds, the surviving
task 2 still lists the deleted id 1 in `dependencies` — the claim that no
remaining task's dependencies contain the deleted id is false. -/
theorem delete_task_dependencies_counterexample :
    (delete_task c2CStore 1).1 = true ∧
      alookup (delete_task c2CStore 1).2 1 = none ∧
      (alookup (delete_task c2CStore 1).2 2).map Task.dependencies
        = some [1] := ⟨rfl, rfl, rfl⟩

/-! ### Claim C4: `validate_dependencies` (cycle detection) -/

/-- The error message for a missing dependency id. -/
def missingMsg (d : Nat) : String :=
  "Dependency '" ++ toString d ++ "' not found"

/-- The mutable closure state of `validate_dependencies`: the `visited` and
`rec_stack` sets (as lists of their elements) and the `errors` list. -/
structure DfsSt where
  visited : List Nat
  stack : List Nat
  errors : List String
  deriving DecidableEq, Repr

mutual

/-- The inner `has_cycle(task_id)` closure.  Fuel only expresses the
recursion in Lean; `validate_dependencies` supplies `|store| + 1`, and the
lemmas below show a clean (false) run never consumes it and a true answer
with this fuel always comes from a real revisit of the recursion stack. -/
def hasCycle (f : Nat) (s : Store) (id : Nat) (st : DfsSt) : Bool × DfsSt :=
  match f with
  | 0 => (true, st)
  | f + 1 =>
      if id ∈ st.stack then (true, st)
      else if id ∈ st.visited then (false, st)
      else
        match alookup s id with
        | some t =>
            match depsLoop f s t.dependencies
                ⟨id :: st.visited, id :: st.stack, st.errors⟩ with
            | (true, st2) => (true, st2)
            | (false, st2) => (false, { st2 with stack := st2.stack.erase id })
        | Option.none =>
            (false, ⟨id :: st.visited, (id :: st.stack).erase id, st.errors⟩)
termination_by (f, 0)

/-- The `for dep_id in task.dependencies` loop: a missing dependency appends
an error, a present one recurses and aborts the loop on `True`. -/
def depsLoop (f : Nat) (s : Store) (ds : List Nat) (st : DfsSt) :
    Bool × DfsSt :=
  match ds with
  | [] => (false, st)
  | d :: rest =>
      if alookup s d = Option.none then
        depsLoop f s rest { st with errors := st.errors ++ [missingMsg d] }
      else
        match hasCycle f s d st with
        | (true, st2) => (true, st2)
        | (false, st2) => depsLoop f s rest st2
termination_by (f, ds.length + 1)

end

/-- `TaskManager.validate_dependencies`. -/
def validate_dependencies (s : Store) (tid : Nat) : Bool × List String :=
  match alookup s tid with
  | Option.none => (false, ["Task not found"])
  | some _ =>
      match hasCycle (s.length + 1) s tid ⟨[], [], []⟩ with
      | (true, st) =>
          ((st.errors ++ ["Circular dependency detected"]).isEmpty,
           st.errors ++ ["Circular dependency detected"])
      | (false, st) => (st.errors.isEmpty, st.errors)

/-- One dependency edge: `a`'s stored task lists `b` in `dependencies`. -/
def stepD (s : Store) (a b : Nat) : Prop :=
  ∃ t, alookup s a = some t ∧ b ∈ t.dependencies

/-- A dependency cycle reachable from `root`. -/
def CycleFrom (s : Store) (root : Nat) : Prop :=
  ∃ v, Relation.ReflTransGen (stepD s) root v ∧
    Relation.TransGen (stepD s) v v

/-- The recursion stack as a dependency chain from `root` up to the current
call on `id` (list head is the top of the stack). -/
def ChainTo (s : Store) (root : Nat) : List Nat → Nat → Prop
  | [], id => id = root
  | x :: rest, id =>
      (∃ t, alookup s x = some t ∧ id ∈ t.dependencies) ∧
        ChainTo s root rest x

lemma chainTo_reach (s : Store) (root : Nat) :
    ∀ (l : List Nat) (id : Nat), ChainTo s root l id →
      Relation.ReflTransGen (stepD s) root id := by
  intro l
  induction l with
  | nil =>
      intro id h
      rw [show id = root from h]
  | cons x rest ih =>
      intro id h
      obtain ⟨hst, hrest⟩ := h
      exact Relation.ReflTransGen.tail (ih x hrest) hst

lemma chainTo_mem_cycle (s : Store) (root : Nat) :
    ∀ (l : List Nat) (id : Nat), ChainTo s root l id →
      ∀ v ∈ l, Relation.ReflTransGen (stepD s) root v ∧
        Relation.TransGen (stepD s) v id := by
  intro l
  induction l with
  | nil =>
      intro id _ v hv
      cases hv
  | cons x rest ih =>
      intro id h v hv
      obtain ⟨hst, hrest⟩ := h
      rcases List.mem_cons.mp hv with rfl | hm
      · exact ⟨chainTo_reach s root rest v hrest,
          Relation.TransGen.single hst⟩
      · obtain ⟨hr, ht⟩ := ih x hrest v hm
        exact ⟨hr, Relation.TransGen.tail ht hst⟩

/-- The invariant of a clean (abort-free) DFS state. -/
structure Inv (s : Store) (root : Nat) (st : DfsSt) : Prop where
  visKeys : ∀ x ∈ st.visited, (alookup s x).isSome = true
  visNd : st.visited.Nodup
  stackSub : ∀ x ∈ st.stack, x ∈ st.visited
  finClosed : ∀ x, x ∈ st.visited → x ∉ st.stack →
      ∀ t, alookup s x = some t → ∀ d ∈ t.dependencies,
        (alookup s d).isSome = true → d ∈ st.visited ∧ d ∉ st.stack
  finAcyc : ∀ x, x ∈ st.visited → x ∉ st.stack →
      ¬ Relation.TransGen (stepD s) x x
  visReach : ∀ x ∈ st.visited, Relation.ReflTransGen (stepD s) root x
  errChar : ∀ e ∈ st.errors, ∃ x t d, x ∈ st.visited ∧
      alookup s x = some t ∧ d ∈ t.dependencies ∧ alookup s d = none ∧
      e = missingMsg d
  finRep : ∀ x, x ∈ st.visited → x ∉ st.stack →
      ∀ t, alookup s x = some t → ∀ d ∈ t.dependencies,
        alookup s d = none → missingMsg d ∈ st.errors

lemma Inv.init (s : Store) (root : Nat) : Inv s root ⟨[], [], []⟩ := by
  refine ⟨?_, List.nodup_nil, ?_, ?_, ?_, ?_, ?_, ?_⟩ <;>
    intro x hx <;> exact absurd hx (List.not_mem_nil x)

lemma nodup_subset_length {α : Type} [DecidableEq α] (l l' : List α)
    (hnd : l.Nodup) (hsub : ∀ x ∈ l, x ∈ l') : l.length ≤ l'.length := by
  calc l.length = l.toFinset.card := (List.toFinset_card_of_nodup hnd).symm
    _ ≤ l'.toFinset.card := Finset.card_le_card (by
        intro x hx
        rw [List.mem_toFinset] at hx ⊢
        exact hsub x hx)
    _ ≤ l'.length := l'.toFinset_card_le

lemma visited_le_store (s : Store) (l : List Nat) (hnd : l.Nodup)
    (hp : ∀ x ∈ l, (alookup s x).isSome = true) : l.length ≤ s.length := by
  have h1 : ∀ x ∈ l, x ∈ keysList s := by
    intro x hx
    obtain ⟨v, hv⟩ := Option.isSome_iff_exists.mp (hp x hx)
    exact alookup_mem_keys s x v hv
  calc l.length ≤ (keysList s).length := nodup_subset_length l (keysList s) hnd h1
    _ = s.length := by simp [keysList]

lemma stepD_isSome (s : Store) (a b : Nat) (h : stepD s a b) :
    (alookup s a).isSome = true := by
  obtain ⟨t, ht, _⟩ := h
  rw [ht]
  rfl

lemma transGen_isSome (s : Store) (a b : Nat)
    (h : Relation.TransGen (stepD s) a b) : (alookup s a).isSome = true := by
  obtain ⟨c, h1, _⟩ := Relation.TransGen.head'_iff.mp h
  exact stepD_isSome s a c h1

/-- Depth-first search leaves finished (visited, off-stack) nodes
dependency-closed: anything reachable from a finished node and present in
the store is finished too. -/
lemma walk_finished (s : Store) (root : Nat) (st : DfsSt)
    (hInv : Inv s root st) (a : Nat) (hav : a ∈ st.visited)
    (has : a ∉ st.stack) :
    ∀ z, Relation.ReflTransGen (stepD s) a z →
      (alookup s z).isSome = true → z ∈ st.visited ∧ z ∉ st.stack := by
  intro z hz
  induction hz with
  | refl => intro _; exact ⟨hav, has⟩
  | @tail m z hac hcz ih =>
      intro hzP
      obtain ⟨t, htm, hmem⟩ := hcz
      have hm : (alookup s m).isSome = true := by rw [htm]; rfl
      obtain ⟨hmv, hms⟩ := ih hm
      exact hInv.finClosed m hmv hms t htm z hmem hzP

/-- Pushing an unvisited, present, reachable node preserves the invariant. -/
lemma push_inv (s : Store) (root id : Nat) (st : DfsSt) (hInv : Inv s root st)
    (hvis : id ∉ st.visited) (hsome : (alookup s id).isSome = true)
    (hreach : Relation.ReflTransGen (stepD s) root id) :
    Inv s root ⟨id :: st.visited, id :: st.stack, st.errors⟩ := by
  refine ⟨?_, ?_, ?_, ?_, ?_, ?_, ?_, ?_⟩
  · intro x hx
    rcases List.mem_cons.mp hx with rfl | hx
    · exact hsome
    · exact hInv.visKeys x hx
  · exact List.nodup_cons.mpr ⟨hvis, hInv.visNd⟩
  · intro x hx
    rcases List.mem_cons.mp hx with rfl | hx
    · exact List.mem_cons_self x st.visited
    · exact List.mem_cons_of_mem id (hInv.stackSub x hx)
  · intro x hxv hxs t ht d hd hds
    have hxid : x ≠ id := by
      intro h
      exact hxs (h ▸ List.mem_cons_self id st.stack)
    have hxv' : x ∈ st.visited := (List.mem_cons.mp hxv).resolve_left hxid
    have hxs' : x ∉ st.stack := fun h => hxs (List.mem_cons_of_mem id h)
    obtain ⟨hdv, hdk⟩ := hInv.finClosed x hxv' hxs' t ht d hd hds
    refine ⟨List.mem_cons_of_mem id hdv, ?_⟩
    intro hmem
    rcases List.mem_cons.mp hmem with rfl | h
    · exact hvis hdv
    · exact hdk h
  · intro x hxv hxs
    have hxid : x ≠ id := by
      intro h
      exact hxs (h ▸ List.mem_cons_self id st.stack)
    have hxv' : x ∈ st.visited := (List.mem_cons.mp hxv).resolve_left hxid
    have hxs' : x ∉ st.stack := fun h => hxs (List.mem_cons_of_mem id h)
    exact hInv.finAcyc x hxv' hxs'
  · intro x hx
    rcases List.mem_cons.mp hx with rfl | hx
    · exact hreach
    · exact hInv.visReach x hx
  · intro e he
    obtain ⟨x, t, d, hxv, h1, h2, h3, h4⟩ := hInv.errChar e he
    exact ⟨x, t, d, List.mem_cons_of_mem id hxv, h1, h2, h3, h4⟩
  · intro x hxv hxs t ht d hd hdn
    have hxid : x ≠ id := by
      intro h
      exact hxs (h ▸ List.mem_cons_self id st.stack)
    have hxv' : x ∈ st.visited := (List.mem_cons.mp hxv).resolve_left hxid
    have hxs' : x ∉ st.stack := fun h => hxs (List.mem_cons_of_mem id h)
    exact hInv.finRep x hxv' hxs' t ht d hd hdn

/-- Everything a false-returning `hasCycle` call guarantees. -/
def Pfalse (f : Nat) : Prop :=
  ∀ (s : Store) (root id : Nat) (st st₂ : DfsSt),
    Inv s root st →
    Relation.ReflTransGen (stepD s) root id →
    (alookup s id).isSome = true →
    hasCycle f s id st = (false, st₂) →
    Inv s root st₂ ∧ st₂.stack = st.stack ∧
      (∀ x ∈ st.visited, x ∈ st₂.visited) ∧
      id ∈ st₂.visited ∧ id ∉ st.stack ∧
      (∀ e ∈ st.errors, e ∈ st₂.errors)

/-- Everything a false-returning `depsLoop` run guarantees, for a loop over
a sublist `ds` of the stack-top task's dependencies. -/
def Qfalse (f : Nat) : Prop :=
  ∀ (s : Store) (root x : Nat) (rest ds : List Nat) (t : Task)
    (st st₂ : DfsSt),
    Inv s root st →
    st.stack = x :: rest →
    Relation.ReflTransGen (stepD s) root x →
    alookup s x = some t →
    (∀ d ∈ ds, d ∈ t.dependencies) →
    depsLoop f s ds st = (false, st₂) →
    Inv s root st₂ ∧ st₂.stack = st.stack ∧
      (∀ y ∈ st.visited, y ∈ st₂.visited) ∧
      (∀ e ∈ st.errors, e ∈ st₂.errors) ∧
      (∀ d ∈ ds, (alookup s d).isSome = true →
        d ∈ st₂.visited ∧ d ∉ st₂.stack) ∧
      (∀ d ∈ ds, alookup s d = none → missingMsg d ∈ st₂.errors)

lemma P_zero : Pfalse 0 := by
  intro s root id st st₂ _ _ _ hrun
  rw [hasCycle] at hrun
  exact Bool.noConfusion (congrArg Prod.fst hrun)

lemma Q_of_P (f : Nat) (hP : Pfalse f) : Qfalse f := by
  intro s root x rest ds t
  induction ds with
  | nil =>
      intro st st₂ hInv hstk hreach hx hds hrun
      rw [depsLoop] at hrun
      injection hrun with h1 h2
      subst h2
      exact ⟨hInv, rfl, fun y hy => hy, fun e he => he,
        fun d hd => absurd hd (List.not_mem_nil d),
        fun d hd => absurd hd (List.not_mem_nil d)⟩
  | cons d rest' ih =>
      intro st st₂ hInv hstk hreach hx hds hrun
      rw [depsLoop] at hrun
      by_cases hd : alookup s d = Option.none
      · rw [if_pos hd] at hrun
        have hxvis : x ∈ st.visited :=
          hInv.stackSub x (by rw [hstk]; exact List.mem_cons_self x rest)
        have hInv' :
            Inv s root ⟨st.visited, st.stack,
              st.errors ++ [missingMsg d]⟩ := by
          refine ⟨hInv.visKeys, hInv.visNd, hInv.stackSub, hInv.finClosed,
            hInv.finAcyc, hInv.visReach, ?_, ?_⟩
          · intro e he
            rcases List.mem_append.mp he with he | he
            · obtain ⟨y, u, d', h1, h2, h3, h4, h5⟩ := hInv.errChar e he
              exact ⟨y, u, d', h1, h2, h3, h4, h5⟩
            · refine ⟨x, t, d, hxvis, hx,
                hds d (List.mem_cons_self d rest'), hd, ?_⟩
              rcases List.mem_singleton.mp he with rfl
              rfl
          · intro y hyv hys u hu d' hd' hdn
            exact List.mem_append_left _ (hInv.finRep y hyv hys u hu d' hd' hdn)
        obtain ⟨hI2, hs2, hv2, he2, hdp2, hdm2⟩ :=
          ih ⟨st.visited, st.stack, st.errors ++ [missingMsg d]⟩ st₂ hInv'
            hstk hreach hx (fun e he => hds e (List.mem_cons_of_mem d he)) hrun
        refine ⟨hI2, hs2, hv2,
          fun e he => he2 e (List.mem_append_left _ he), ?_, ?_⟩
        · intro d' hd' hp
          rcases List.mem_cons.mp hd' with rfl | hmm
          · rw [hd] at hp
            exact Bool.noConfusion hp
          · exact hdp2 d' hmm hp
        · intro d' hd' hn
          rcases List.mem_cons.mp hd' with rfl | hmm
          · exact he2 (missingMsg d')
              (List.mem_append_right _ (List.mem_singleton_self _))
          · exact hdm2 d' hmm hn
      · rw [if_neg hd] at hrun
        have hdP : (alookup s d).isSome = true := by
          cases hh : alookup s d with
          | none => exact absurd hh hd
          | some v => rfl
        have hreachd : Relation.ReflTransGen (stepD s) root d :=
          Relation.ReflTransGen.tail hreach
            ⟨t, hx, hds d (List.mem_cons_self d rest')⟩
        cases hcall : hasCycle f s d st with
        | mk b st2c =>
            rw [hcall] at hrun
            cases b with
            | true =>
                dsimp only at hrun
                exact Bool.noConfusion (congrArg Prod.fst hrun)
            | false =>
                dsimp only at hrun
                obtain ⟨hI1, hs1, hv1, hd1v, hd1s, he1⟩ :=
                  hP s root d st st2c hInv hreachd hdP hcall
                obtain ⟨hI2, hs2, hv2, he2, hdp2, hdm2⟩ :=
                  ih st2c st₂ hI1 (by rw [hs1, hstk]) hreach hx
                    (fun e he => hds e (List.mem_cons_of_mem d he)) hrun
                refine ⟨hI2, by rw [hs2, hs1],
                  fun y hy => hv2 y (hv1 y hy),
                  fun e he => he2 e (he1 e he), ?_, ?_⟩
                · intro d' hd' hp
                  rcases List.mem_cons.mp hd' with rfl | hmm
                  · refine ⟨hv2 d' hd1v, ?_⟩
                    rw [hs2, hs1]
                    exact hd1s
                  · exact hdp2 d' hmm hp
                · intro d' hd' hn
                  rcases List.mem_cons.mp hd' with rfl | hmm
                  · exact absurd hn hd
                  · exact hdm2 d' hmm hn

lemma P_succ (f : Nat) (hQ : Qfalse f) : Pfalse (f + 1) := by
  intro s root id st st₂ hInv hreach hsome hrun
  rw [hasCycle] at hrun
  by_cases hstk : id ∈ st.stack
  · rw [if_pos hstk] at hrun
    exact Bool.noConfusion (congrArg Prod.fst hrun)
  · rw [if_neg hstk] at hrun
    by_cases hvis : id ∈ st.visited
    · rw [if_pos hvis] at hrun
      injection hrun with h1 h2
      subst h2
      exact ⟨hInv, rfl, fun y hy => hy, hvis, hstk, fun e he => he⟩
    · rw [if_neg hvis] at hrun
      obtain ⟨t, ht⟩ := Option.isSome_iff_exists.mp hsome
      rw [ht] at hrun
      dsimp only at hrun
      have hInv1 := push_inv s root id st hInv hvis hsome hreach
      cases hloop : depsLoop f s t.dependencies
          ⟨id :: st.visited, id :: st.stack, st.errors⟩ with
      | mk b st2 =>
          rw [hloop] at hrun
          cases b with
          | true =>
              dsimp only at hrun
              exact Bool.noConfusion (congrArg Prod.fst hrun)
          | false =>
              dsimp only at hrun
              injection hrun with h1 h2
              obtain ⟨hI2, hs2, hv2, he2, hdp, hdm⟩ :=
                hQ s root id st.stack t.dependencies t
                  ⟨id :: st.visited, id :: st.stack, st.errors⟩ st2 hInv1 rfl
                  hreach ht (fun d hdd => hdd) hloop
              have hstack : st2.stack.erase id = st.stack := by
                rw [hs2]
                exact List.erase_cons_head id st.stack
              have hfin : st₂ = ⟨st2.visited, st.stack, st2.errors⟩ := by
                rw [← h2, hstack]
              subst hfin
              have hIdV : id ∈ st2.visited :=
                hv2 id (List.mem_cons_self id st.visited)
              refine ⟨⟨hI2.visKeys, hI2.visNd, ?_, ?_, ?_, hI2.visReach,
                  hI2.errChar, ?_⟩, rfl,
                fun y hy => hv2 y (List.mem_cons_of_mem id hy), hIdV, hstk,
                fun e he => he2 e he⟩
              · intro y hy
                exact hI2.stackSub y
                  (by rw [hs2]; exact List.mem_cons_of_mem id hy)
              · intro y hyv hys t' ht' d hdmem hdP
                by_cases hyid : y = id
                · subst hyid
                  have htt : t = t' := Option.some.inj (ht.symm.trans ht')
                  obtain ⟨hdv, hds'⟩ := hdp d (by rw [htt]; exact hdmem) hdP
                  refine ⟨hdv, fun hmem => hds' ?_⟩
                  rw [hs2]
                  exact List.mem_cons_of_mem y hmem
                · have hys2 : y ∉ st2.stack := by
                    rw [hs2]
                    intro hmem
                    rcases List.mem_cons.mp hmem with h | h
                    · exact hyid h
                    · exact hys h
                  obtain ⟨hdv, hds'⟩ :=
                    hI2.finClosed y hyv hys2 t' ht' d hdmem hdP
                  refine ⟨hdv, fun hmem => hds' ?_⟩
                  rw [hs2]
                  exact List.mem_cons_of_mem id hmem
              · intro y hyv hys
                by_cases hyid : y = id
                · subst hyid
                  intro hcyc
                  obtain ⟨c, hstep, hrc⟩ := Relation.TransGen.head'_iff.mp hcyc
                  obtain ⟨t', ht', hmem⟩ := hstep
                  have htt : t = t' := Option.some.inj (ht.symm.trans ht')
                  have hcP : (alookup s c).isSome = true := by
                    rcases hrc.cases_head with h | ⟨m, hcm, _⟩
                    · rw [h]
                      exact hsome
                    · exact stepD_isSome s c m hcm
                  obtain ⟨hcv, hcs⟩ := hdp c (by rw [htt]; exact hmem) hcP
                  obtain ⟨hidv2, hids2⟩ :=
                    walk_finished s root st2 hI2 c hcv hcs y hrc hsome
                  exact hids2
                    (by rw [hs2]; exact List.mem_cons_self y st.stack)
                · have hys2 : y ∉ st2.stack := by
                    rw [hs2]
                    intro hmem
                    rcases List.mem_cons.mp hmem with h | h
                    · exact hyid h
                    · exact hys h
                  exact hI2.finAcyc y hyv hys2
              · intro y hyv hys t' ht' d hdmem hdn
                by_cases hyid : y = id
                · subst hyid
                  have htt : t = t' := Option.some.inj (ht.symm.trans ht')
                  exact hdm d (by rw [htt]; exact hdmem) hdn
                · have hys2 : y ∉ st2.stack := by
                    rw [hs2]
                    intro hmem
                    rcases List.mem_cons.mp hmem with h | h
                    · exact hyid h
                    · exact hys h
                  exact hI2.finRep y hyv hys2 t' ht' d hdmem hdn

lemma P_all (f : Nat) : Pfalse f := by
  induction f with
  | zero => exact P_zero
  | succ f ih => exact P_succ f (Q_of_P f ih)

/-- A true answer of `hasCycle`, with enough fuel, witnesses a real cycle. -/
def Ptrue (f : Nat) : Prop :=
  ∀ (s : Store) (root id : Nat) (st st₂ : DfsSt),
    Inv s root st →
    s.length + 1 ≤ f + st.visited.length →
    ChainTo s root st.stack id →
    (alookup s id).isSome = true →
    hasCycle f s id st = (true, st₂) →
    CycleFrom s root

/-- A true answer of `depsLoop`, with enough fuel, witnesses a real cycle. -/
def Qtrue (f : Nat) : Prop :=
  ∀ (s : Store) (root x : Nat) (rest ds : List Nat) (t : Task)
    (st st₂ : DfsSt),
    Inv s root st →
    s.length + 1 ≤ f + st.visited.length →
    st.stack = x :: rest →
    ChainTo s root rest x →
    alookup s x = some t →
    (∀ d ∈ ds, d ∈ t.dependencies) →
    depsLoop f s ds st = (true, st₂) →
    CycleFrom s root

lemma Pt_zero : Ptrue 0 := by
  intro s root id st st₂ hInv hfuel _ _ _
  have hle := visited_le_store s st.visited hInv.visNd hInv.visKeys
  omega

lemma Qt_of (f : Nat) (hPf : Pfalse f) (hPt : Ptrue f) : Qtrue f := by
  intro s root x rest ds t
  induction ds with
  | nil =>
      intro st st₂ _ _ _ _ _ _ hrun
      rw [depsLoop] at hrun
      exact Bool.noConfusion (congrArg Prod.fst hrun)
  | cons d rest' ih =>
      intro st st₂ hInv hfuel hstk hchain hx hds hrun
      rw [depsLoop] at hrun
      by_cases hd : alookup s d = Option.none
      · rw [if_pos hd] at hrun
        have hxvis : x ∈ st.visited :=
          hInv.stackSub x (by rw [hstk]; exact List.mem_cons_self x rest)
        have hInv' :
            Inv s root ⟨st.visited, st.stack,
              st.errors ++ [missingMsg d]⟩ := by
          refine ⟨hInv.visKeys, hInv.visNd, hInv.stackSub, hInv.finClosed,
            hInv.finAcyc, hInv.visReach, ?_, ?_⟩
          · intro e he
            rcases List.mem_append.mp he with he | he
            · obtain ⟨y, u, d', h1, h2, h3, h4, h5⟩ := hInv.errChar e he
              exact ⟨y, u, d', h1, h2, h3, h4, h5⟩
            · refine ⟨x, t, d, hxvis, hx,
                hds d (List.mem_cons_self d rest'), hd, ?_⟩
              rcases List.mem_singleton.mp he with rfl
              rfl
          · intro y hyv hys u hu d' hd' hdn
            exact List.mem_append_left _ (hInv.finRep y hyv hys u hu d' hd' hdn)
        exact ih ⟨st.visited, st.stack, st.errors ++ [missingMsg d]⟩ st₂ hInv'
          hfuel hstk hchain hx
          (fun e he => hds e (List.mem_cons_of_mem d he)) hrun
      · rw [if_neg hd] at hrun
        have hdP : (alookup s d).isSome = true := by
          cases hh : alookup s d with
          | none => exact absurd hh hd
          | some v => rfl
        cases hcall : hasCycle f s d st with
        | mk b st2c =>
            rw [hcall] at hrun
            cases b with
            | true =>
                refine hPt s root d st st2c hInv hfuel ?_ hdP hcall
                rw [hstk]
                exact ⟨⟨t, hx, hds d (List.mem_cons_self d rest')⟩, hchain⟩
            | false =>
                dsimp only at hrun
                have hreachd : Relation.ReflTransGen (stepD s) root d :=
                  Relation.ReflTransGen.tail (chainTo_reach s root rest x hchain)
                    ⟨t, hx, hds d (List.mem_cons_self d rest')⟩
                obtain ⟨hI1, hs1, hv1, hd1v, hd1s, he1⟩ :=
                  hPf s root d st st2c hInv hreachd hdP hcall
                have hlen :=
                  nodup_subset_length st.visited st2c.visited hInv.visNd hv1
                exact ih st2c st₂ hI1 (by omega) (by rw [hs1, hstk]) hchain hx
                  (fun e he => hds e (List.mem_cons_of_mem d he)) hrun

lemma Pt_succ (f : Nat) (hQt : Qtrue f) : Ptrue (f + 1) := by
  intro s root id st st₂ hInv hfuel hchain hsome hrun
  rw [hasCycle] at hrun
  by_cases hstkm : id ∈ st.stack
  · obtain ⟨hr, ht⟩ := chainTo_mem_cycle s root st.stack id hchain id hstkm
    exact ⟨id, hr, ht⟩
  · rw [if_neg hstkm] at hrun
    by_cases hvism : id ∈ st.visited
    · rw [if_pos hvism] at hrun
      exact Bool.noConfusion (congrArg Prod.fst hrun)
    · rw [if_neg hvism] at hrun
      obtain ⟨t, ht⟩ := Option.isSome_iff_exists.mp hsome
      rw [ht] at hrun
      dsimp only at hrun
      have hreach : Relation.ReflTransGen (stepD s) root id :=
        chainTo_reach s root st.stack id hchain
      have hInv1 := push_inv s root id st hInv hvism hsome hreach
      cases hloop : depsLoop f s t.dependencies
          ⟨id :: st.visited, id :: st.stack, st.errors⟩ with
      | mk b st2 =>
          rw [hloop] at hrun
          cases b with
          | false =>
              dsimp only at hrun
              exact Bool.noConfusion (congrArg Prod.fst hrun)
          | true =>
              refine hQt s root id st.stack t.dependencies t
                ⟨id :: st.visited, id :: st.stack, st.errors⟩ st2 hInv1 ?_ rfl
                hchain ht (fun d hdd => hdd) hloop
              show s.length + 1 ≤ f + (id :: st.visited).length
              simp only [List.length_cons]
              omega

lemma Pt_all (f : Nat) : Ptrue f := by
  induction f with
  | zero => exact Pt_zero
  | succ f ih => exact Pt_succ f (Qt_of f (P_all f) ih)

/-- The kwargs record `update_task(id, dependencies=deps)`. -/
def depPatch (deps : List Nat) : UpdatePatch :=
  ⟨Option.none, Option.none, Option.none, Option.none, some deps⟩

/-- C4 (amended): for a stored root task, (i) when every dependency id
reachable from the root is present and no cycle is reachable,
`validate_dependencies` returns `(True, [])` — in particular a diamond is
not reported as a cycle; (ii) when a cycle is reachable it returns
`ok = False` with a `"Circular dependency detected"` error; (iii) in a
cycle-free graph every reachable missing dependency id is reported; but
(iv) `update_task(root, dependencies=deps)` performs no validation at all:
it returns `True` and stores `deps` verbatim — an edge that closes a cycle
is persisted, not rejected. -/
theorem validate_dependencies_amended (s : Store) (root : Nat) (t0 : Task)
    (hroot : alookup s root = some t0) :
    ((∀ x u, Relation.ReflTransGen (stepD s) root x → alookup s x = some u →
        ∀ d ∈ u.dependencies, (alookup s d).isSome = true) →
      ¬ CycleFrom s root →
      validate_dependencies s root = (true, [])) ∧
    (CycleFrom s root →
      (validate_dependencies s root).1 = false ∧
        "Circular dependency detected" ∈ (validate_dependencies s root).2) ∧
    (¬ CycleFrom s root →
      ∀ x u d, Relation.ReflTransGen (stepD s) root x → alookup s x = some u →
        d ∈ u.dependencies → alookup s d = none →
        missingMsg d ∈ (validate_dependencies s root).2) ∧
    (∀ deps now,
      (update_task s root (depPatch deps) now).1 = true ∧
      ∃ t', alookup (update_task s root (depPatch deps) now).2 root = some t' ∧
        t'.dependencies = deps) := by
  have hsome : (alookup s root).isSome = true := by rw [hroot]; rfl
  refine ⟨?_, ?_, ?_, ?_⟩
  · intro hall hnc
    cases hrun : hasCycle (s.length + 1) s root ⟨[], [], []⟩ with
    | mk b st2 =>
        cases b with
        | true =>
            exact absurd
              (Pt_all (s.length + 1) s root root ⟨[], [], []⟩ st2
                (Inv.init s root) (by simp) rfl hsome hrun) hnc
        | false =>
            obtain ⟨hI, hs, _, hrootv, _, _⟩ :=
              P_all (s.length + 1) s root root ⟨[], [], []⟩ st2
                (Inv.init s root) Relation.ReflTransGen.refl hsome hrun
            have herrs : st2.errors = [] := by
              rcases heq : st2.errors with _ | ⟨e, es⟩
              · rfl
              · exfalso
                obtain ⟨x, u, d, hxv, hxu, hdmem, hdn, _⟩ :=
                  hI.errChar e (by rw [heq]; exact List.mem_cons_self e es)
                have := hall x u (hI.visReach x hxv) hxu d hdmem
                rw [hdn] at this
                exact Bool.noConfusion this
            simp only [validate_dependencies, hroot, hrun, herrs]
            rfl
  · intro hcyc
    cases hrun : hasCycle (s.length + 1) s root ⟨[], [], []⟩ with
    | mk b st2 =>
        cases b with
        | false =>
            exfalso
            obtain ⟨hI, hs, _, hrootv, _, _⟩ :=
              P_all (s.length + 1) s root root ⟨[], [], []⟩ st2
                (Inv.init s root) Relation.ReflTransGen.refl hsome hrun
            obtain ⟨v, hrv, htv⟩ := hcyc
            have hvP : (alookup s v).isSome = true := transGen_isSome s v v htv
            have hroots : root ∉ st2.stack := by
              rw [hs]
              exact List.not_mem_nil root
            obtain ⟨hvv, hvs⟩ :=
              walk_finished s root st2 hI root hrootv hroots v hrv hvP
            exact hI.finAcyc v hvv hvs htv
        | true =>
            simp only [validate_dependencies, hroot, hrun]
            constructor
            · cases st2.errors <;> rfl
            · exact List.mem_append_right _ (List.mem_singleton_self _)
  · intro hnc x u d hrx hxu hdmem hdn
    cases hrun : hasCycle (s.length + 1) s root ⟨[], [], []⟩ with
    | mk b st2 =>
        cases b with
        | true =>
            exact absurd
              (Pt_all (s.length + 1) s root root ⟨[], [], []⟩ st2
                (Inv.init s root) (by simp) rfl hsome hrun) hnc
        | false =>
            obtain ⟨hI, hs, _, hrootv, _, _⟩ :=
              P_all (s.length + 1) s root root ⟨[], [], []⟩ st2
                (Inv.init s root) Relation.ReflTransGen.refl hsome hrun
            have hroots : root ∉ st2.stack := by
              rw [hs]
              exact List.not_mem_nil root
            have hxP : (alookup s x).isSome = true := by rw [hxu]; rfl
            obtain ⟨hxv, hxs⟩ :=
              walk_finished s root st2 hI root hrootv hroots x hrx hxP
            have hmem := hI.finRep x hxv hxs u hxu d hdmem hdn
            simp only [validate_dependencies, hroot, hrun]
            exact hmem
  · intro deps now
    have heq : update_task s root (depPatch deps) now =
        (true, aset s root
          { applyPatch t0 (depPatch deps) with updated_at := now }) := by
      rw [update_task, hroot]
    refine ⟨by rw [heq], ?_⟩
    rw [heq]
    exact ⟨_, alookup_aset_self s root _, rfl⟩

/-- A one-task store with no dependencies, for the C4 witness. -/
def c4WStore : Store :=
  [(0, simpleTask 0 (PyStatus.enum TaskStatus.pending) 0 [] [] Option.none)]

/-- C4 witness: on a concrete acyclic store the validator returns
`(True, [])` and `update_task` stores a dangling dependency verbatim. -/
theorem validate_dependencies_amended_witness :
    validate_dependencies c4WStore 0 = (true, []) ∧
    (update_task c4WStore 0 (depPatch [2]) 5).1 = true := by
  have h := validate_dependencies_amended c4WStore 0
    (simpleTask 0 (PyStatus.enum TaskStatus.pending) 0 [] [] Option.none) rfl
  refine ⟨h.1 ?_ ?_, (h.2.2.2 [2] 5).1⟩
  · intro x u _ hxu d hdmem
    by_cases hx : x = 0
    · subst hx
      have hu : u = simpleTask 0 (PyStatus.enum TaskStatus.pending) 0 [] []
          Option.none := by
        have h2 : alookup c4WStore 0 = some (simpleTask 0
            (PyStatus.enum TaskStatus.pending) 0 [] [] Option.none) := rfl
        rw [h2] at hxu
        exact (Option.some.inj hxu).symm
      rw [hu] at hdmem
      exact absurd hdmem (by simp [simpleTask])
    · exfalso
      have : alookup c4WStore x = Option.none := by
        simp [c4WStore, alookup, hx]
      rw [this] at hxu
      exact Option.noConfusion hxu
  · intro hcyc
    obtain ⟨v, _, htv⟩ := hcyc
    obtain ⟨c, ⟨u, hvu, hcd⟩, _⟩ := Relation.TransGen.head'_iff.mp htv
    by_cases hv : v = 0
    · subst hv
      have hu : u = simpleTask 0 (PyStatus.enum TaskStatus.pending) 0 [] []
          Option.none := by
        have h2 : alookup c4WStore 0 = some (simpleTask 0
            (PyStatus.enum TaskStatus.pending) 0 [] [] Option.none) := rfl
        rw [h2] at hvu
        exact (Option.some.inj hvu).symm
      rw [hu] at hcd
      exact absurd hcd (by simp [simpleTask])
    · have : alookup c4WStore v = Option.none := by
        simp [c4WStore, alookup, hv]
      rw [this] at hvu
      exact Option.noConfusion hvu

/-- A two-task store where task 2 depends on task 1, for the C4
counterexample. -/
def c4CStore : Store :=
  [(1, simpleTask 1 (PyStatus.enum TaskStatus.pending) 0 [] [] Option.none),
   (2, simpleTask 2 (PyStatus.enum TaskStatus.pending) 0 [] [1] Option.none)]

/-- C4 counterexample: `update_task(1, dependencies=[2])` closes the cycle
`1 → 2 → 1`, yet it returns `True` and persists the edge — the stored state
changes and now contains a reachable cycle, refuting "rejected before being
persisted, leaving stored state unchanged". -/
theorem validate_dependencies_counterexample :
    (update_task c4CStore 1 (depPatch [2]) 7).1 = true ∧
    (∃ t', alookup (update_task c4CStore 1 (depPatch [2]) 7).2 1 = some t' ∧
      t'.dependencies = [2]) ∧
    CycleFrom (update_task c4CStore 1 (depPatch [2]) 7).2 1 := by
  have h2 : alookup (update_task c4CStore 1 (depPatch [2]) 7).2 1 =
      some { applyPatch (simpleTask 1 (PyStatus.enum TaskStatus.pending) 0 []
        [] Option.none) (depPatch [2]) with updated_at := 7 } := rfl
  have h3 : alookup (update_task c4CStore 1 (depPatch [2]) 7).2 2 =
      some (simpleTask 2 (PyStatus.enum TaskStatus.pending) 0 [] [1]
        Option.none) := rfl
  refine ⟨rfl, ⟨_, h2, rfl⟩, 1, Relation.ReflTransGen.refl,
    Relation.TransGen.head ⟨_, h2, ?_⟩
      (Relation.TransGen.single ⟨_, h3, ?_⟩)⟩
  · exact List.mem_singleton_self 2
  · exact List.mem_singleton_self 1

end TaskEngine
